import Mathlib

/-!
Verification of the aether spatial-simulation core.

Shallow embedding of the Go sources:
* package `entity` (entity manager, vectors, movement deltas),
* package `spatial` (quadtree over the world rectangle),
* package `engine` (SpatialEngine tick pipeline, AOI manager, movement
  validation) and `authority.go` (MovementValidator),
* package `engine` of the second tree (`internal/engine`: AABB quadtree and
  GameEngine tick with client knowledge).

Float64 coordinates are modelled by exact rationals (ℚ); the only genuinely
irrational operation, `math.Sqrt` in the movement validator, is modelled over
ℝ with `Real.sqrt`.  Conditions of the form `math.Sqrt s > m` in code paths
that are otherwise rational are embedded as `s > m * m`, which is equivalent
for the non-negative `maxSpeed` that configuration validation enforces.
Unsigned integer ids and sequence numbers are modelled as ℕ: the code never
performs arithmetic on them other than increment and comparison, so wraparound
is unreachable for the population sizes admitted by configuration.
-/

namespace Aether

/-- Two-dimensional vector, `entity.Vector2` (float64 fields modelled as ℚ). -/
structure Vector2 where
  x : ℚ
  y : ℚ
deriving DecidableEq, Repr

/-- `Vector2.Add` from the source. -/
def Vector2.add (v other : Vector2) : Vector2 :=
  ⟨v.x + other.x, v.y + other.y⟩

/-- `Vector2.Subtract` from the source. -/
def Vector2.subtract (v other : Vector2) : Vector2 :=
  ⟨v.x - other.x, v.y - other.y⟩

/-- `Vector2.Multiply` from the source. -/
def Vector2.multiply (v : Vector2) (scalar : ℚ) : Vector2 :=
  ⟨v.x * scalar, v.y * scalar⟩

/-- `Vector2.Distance` from the source: the SQUARED distance
(the Go comment says "Return squared distance for performance"). -/
def Vector2.distance (v other : Vector2) : ℚ :=
  (v.x - other.x) * (v.x - other.x) + (v.y - other.y) * (v.y - other.y)

/-- `Vector2.Length` from the source: the SQUARED length. -/
def Vector2.length (v : Vector2) : ℚ :=
  v.x * v.x + v.y * v.y

/-- `proto.MovementDelta` (client movement intent). -/
structure MovementDelta where
  entityId : ℕ
  sequence : ℕ
  deltaX : ℚ
  deltaY : ℚ
  timestamp : ℕ
deriving DecidableEq, Repr

/-- `entity.Entity`: the canonical record of a moving object.
`LastUpdate` timestamps are irrelevant to every claim and are dropped. -/
structure Entity where
  id : ℕ
  etype : String
  position : Vector2
  velocity : Vector2
  clientID : String
  lastSequence : ℕ
  pendingMoves : List MovementDelta
deriving DecidableEq, Repr

/-- `EntityManager.ClearPendingMoves`, the per-entity state change: keeps the
pending moves with sequence above `upToSequence` and unconditionally sets
`LastSequence = upToSequence`. -/
def clearPendingMoves (e : Entity) (upToSequence : ℕ) : Entity :=
  { e with
    pendingMoves := e.pendingMoves.filter (fun m => decide (upToSequence < m.sequence)),
    lastSequence := upToSequence }

/-- `config.WorldBounds`. -/
structure WorldBounds where
  minX : ℚ
  minY : ℚ
  maxX : ℚ
  maxY : ℚ

/-- The part of `config.EngineConfig` the engine reads. -/
structure EngineConfig where
  worldBounds : WorldBounds
  maxSpeed : ℚ
  aoiRadius : ℚ
  quadtreeCapacity : ℕ
  quadtreeDepth : ℕ

/-! ## Package `spatial`: the quadtree over the world rectangle -/

/-- `spatial.Rectangle`. -/
structure Rectangle where
  x : ℚ
  y : ℚ
  width : ℚ
  height : ℚ
deriving DecidableEq, Repr

/-- `Rectangle.Contains`: half-open on the right and top,
`[x, x+w) × [y, y+h)`. -/
def Rectangle.Contains (r : Rectangle) (p : Vector2) : Prop :=
  r.x ≤ p.x ∧ p.x < r.x + r.width ∧ r.y ≤ p.y ∧ p.y < r.y + r.height

instance (r : Rectangle) (p : Vector2) : Decidable (r.Contains p) := by
  unfold Rectangle.Contains
  infer_instance

/-- `Rectangle.Intersects` from the source (negated separation test). -/
def Rectangle.Intersects (r other : Rectangle) : Prop :=
  ¬(other.x + other.width ≤ r.x ∨ r.x + r.width ≤ other.x ∨
    other.y + other.height ≤ r.y ∨ r.y + r.height ≤ other.y)

instance (r other : Rectangle) : Decidable (r.Intersects other) := by
  unfold Rectangle.Intersects
  infer_instance

/-- `Rectangle.IntersectsCircle`: closest-point test against the closed box,
compared (inclusively) with the squared radius. -/
def Rectangle.IntersectsCircle (r : Rectangle) (center : Vector2) (radiusSq : ℚ) : Prop :=
  let closestX := max r.x (min center.x (r.x + r.width))
  let closestY := max r.y (min center.y (r.y + r.height))
  (center.x - closestX) * (center.x - closestX) +
    (center.y - closestY) * (center.y - closestY) ≤ radiusSq

instance (r : Rectangle) (center : Vector2) (radiusSq : ℚ) :
    Decidable (r.IntersectsCircle center radiusSq) := by
  unfold Rectangle.IntersectsCircle
  infer_instance

/-- North-west quadrant of `subdivide`. -/
def Rectangle.nwRect (r : Rectangle) : Rectangle :=
  ⟨r.x, r.y, r.width / 2, r.height / 2⟩

/-- North-east quadrant of `subdivide`. -/
def Rectangle.neRect (r : Rectangle) : Rectangle :=
  ⟨r.x + r.width / 2, r.y, r.width / 2, r.height / 2⟩

/-- South-west quadrant of `subdivide`. -/
def Rectangle.swRect (r : Rectangle) : Rectangle :=
  ⟨r.x, r.y + r.height / 2, r.width / 2, r.height / 2⟩

/-- South-east quadrant of `subdivide`. -/
def Rectangle.seRect (r : Rectangle) : Rectangle :=
  ⟨r.x + r.width / 2, r.y + r.height / 2, r.width / 2, r.height / 2⟩

/-- `spatial.Quadtree`.  A `node` is a tree whose `divided` flag is set; its
four children are stored in the fixed NW, NE, SW, SE order of the source. -/
inductive Quadtree where
  | leaf (bounds : Rectangle) (capacity depth maxDepth : ℕ) (entities : List Entity)
  | node (bounds : Rectangle) (capacity depth maxDepth : ℕ) (entities : List Entity)
      (nw ne sw se : Quadtree)
deriving DecidableEq

def Quadtree.bounds : Quadtree → Rectangle
  | .leaf b _ _ _ _ => b
  | .node b _ _ _ _ _ _ _ _ => b

def Quadtree.capacity : Quadtree → ℕ
  | .leaf _ c _ _ _ => c
  | .node _ c _ _ _ _ _ _ _ => c

def Quadtree.depth : Quadtree → ℕ
  | .leaf _ _ d _ _ => d
  | .node _ _ d _ _ _ _ _ _ => d

def Quadtree.maxDepth : Quadtree → ℕ
  | .leaf _ _ _ md _ => md
  | .node _ _ _ md _ _ _ _ _ => md

def Quadtree.entities : Quadtree → List Entity
  | .leaf _ _ _ _ ents => ents
  | .node _ _ _ _ ents _ _ _ _ => ents

/-- All entities stored anywhere in the tree, in NW, NE, SW, SE child order. -/
def Quadtree.toList : Quadtree → List Entity
  | .leaf _ _ _ _ ents => ents
  | .node _ _ _ _ ents nw ne sw se =>
      ents ++ nw.toList ++ ne.toList ++ sw.toList ++ se.toList

/-- `NewQuadtree` from the source. -/
def NewQuadtree (bounds : Rectangle) (capacity depth maxDepth : ℕ) : Quadtree :=
  .leaf bounds capacity depth maxDepth []

/-- The world rectangle built by `NewQuadtreeFromConfig`. -/
def worldRect (cfg : EngineConfig) : Rectangle :=
  ⟨cfg.worldBounds.minX, cfg.worldBounds.minY,
   cfg.worldBounds.maxX - cfg.worldBounds.minX,
   cfg.worldBounds.maxY - cfg.worldBounds.minY⟩

/-- `NewQuadtreeFromConfig` from the source. -/
def NewQuadtreeFromConfig (cfg : EngineConfig) : Quadtree :=
  NewQuadtree (worldRect cfg) cfg.quadtreeCapacity 0 cfg.quadtreeDepth

/-- The four fresh children produced by `subdivide`. -/
def subdivideChildren (b : Rectangle) (c d md : ℕ) :
    Quadtree × Quadtree × Quadtree × Quadtree :=
  (.leaf b.nwRect c (d + 1) md [], .leaf b.neRect c (d + 1) md [],
   .leaf b.swRect c (d + 1) md [], .leaf b.seRect c (d + 1) md [])

/-- The short-circuit insertion attempt
`children[0].Insert(ent) || children[1].Insert(ent) || children[2].Insert(ent) || children[3].Insert(ent)`:
children are tried in order; a failed attempt leaves its child unchanged. -/
def tryFour (ins : Quadtree → Entity → Quadtree × Bool)
    (q : Quadtree × Quadtree × Quadtree × Quadtree) (ent : Entity) :
    (Quadtree × Quadtree × Quadtree × Quadtree) × Bool :=
  let r1 := ins q.1 ent
  if r1.2 then ((r1.1, q.2.1, q.2.2.1, q.2.2.2), true)
  else
    let r2 := ins q.2.1 ent
    if r2.2 then ((q.1, r2.1, q.2.2.1, q.2.2.2), true)
    else
      let r3 := ins q.2.2.1 ent
      if r3.2 then ((q.1, q.2.1, r3.1, q.2.2.2), true)
      else
        let r4 := ins q.2.2.2 ent
        ((q.1, q.2.1, q.2.2.1, r4.1), r4.2)

/-- `Quadtree.Insert`, with an explicit recursion fuel (the Go recursion
terminates because subdivision stops at `maxDepth`; fuel at least
`maxDepth - depth + 1` is never exhausted, which `insertAux_spec` shows).
At fuel 0 only the non-recursive branches of the source are available. -/
def Quadtree.insertAux : ℕ → Quadtree → Entity → Quadtree × Bool
  | 0, t, ent =>
      if ¬ t.bounds.Contains ent.position then (t, false)
      else
        match t with
        | .leaf b c d md ents =>
            if ents.length < c ∨ md ≤ d then (.leaf b c d md (ents ++ [ent]), true)
            else (.leaf b c d md ents, false)
        | .node b c d md ents nw ne sw se =>
            if ents.length < c ∨ md ≤ d then
              (.node b c d md (ents ++ [ent]) nw ne sw se, true)
            else (.node b c d md ents nw ne sw se, false)
  | fuel' + 1, t, ent =>
      if ¬ t.bounds.Contains ent.position then (t, false)
      else
        match t with
        | .leaf b c d md ents =>
            if ents.length < c ∨ md ≤ d then (.leaf b c d md (ents ++ [ent]), true)
            else
              -- subdivide: fresh children, re-insert the stored entities,
              -- then try the new entity against the children in order
              let c0 := subdivideChildren b c d md
              let cs := ents.foldl
                (fun q x => (tryFour (Quadtree.insertAux fuel') q x).1) c0
              let res := tryFour (Quadtree.insertAux fuel') cs ent
              (.node b c d md [] res.1.1 res.1.2.1 res.1.2.2.1 res.1.2.2.2, res.2)
        | .node b c d md ents nw ne sw se =>
            if ents.length < c ∨ md ≤ d then
              (.node b c d md (ents ++ [ent]) nw ne sw se, true)
            else
              let res := tryFour (Quadtree.insertAux fuel') (nw, ne, sw, se) ent
              (.node b c d md ents res.1.1 res.1.2.1 res.1.2.2.1 res.1.2.2.2, res.2)

/-- Public `Insert` on a tree: fuel `maxDepth + 1` covers every well-formed
tree reachable from a depth-0 root. -/
def Quadtree.insert (t : Quadtree) (ent : Entity) : Quadtree × Bool :=
  Quadtree.insertAux (t.maxDepth + 1) t ent

/-- Removal of the first entity with a given id from a node-level list
(the `for i, e := range qt.entities` loop of `removeInternal`). -/
def removeById : List Entity → ℕ → List Entity × Bool
  | [], _ => ([], false)
  | x :: xs, i =>
      if x.id = i then (xs, true)
      else
        let r := removeById xs i
        (x :: r.1, r.2)

/-- `Quadtree.removeInternal`: search the current level, then the children in
NW, NE, SW, SE order. -/
def Quadtree.removeInternal : Quadtree → Entity → Quadtree × Bool
  | .leaf b c d md ents, ent =>
      let r := removeById ents ent.id
      if r.2 then (.leaf b c d md r.1, true) else (.leaf b c d md ents, false)
  | .node b c d md ents nw ne sw se, ent =>
      let r := removeById ents ent.id
      if r.2 then (.node b c d md r.1 nw ne sw se, true)
      else
        let r1 := nw.removeInternal ent
        if r1.2 then (.node b c d md ents r1.1 ne sw se, true)
        else
          let r2 := ne.removeInternal ent
          if r2.2 then (.node b c d md ents nw r2.1 sw se, true)
          else
            let r3 := sw.removeInternal ent
            if r3.2 then (.node b c d md ents nw ne r3.1 se, true)
            else
              let r4 := se.removeInternal ent
              (.node b c d md ents nw ne sw r4.1, r4.2)

/-- `Quadtree.Remove` (the lock wrapper adds nothing functionally). -/
def Quadtree.remove (t : Quadtree) (ent : Entity) : Quadtree × Bool :=
  t.removeInternal ent

/-- `Quadtree.Update`: remove by id, then re-insert at the current position.
The `oldPos` parameter is unused in the source as well. -/
def Quadtree.update (t : Quadtree) (ent : Entity) (oldPos : Vector2) : Quadtree × Bool :=
  let r := t.remove ent
  r.1.insert ent

/-- `Quadtree.queryRadiusInternal` (argument is the squared radius). -/
def Quadtree.queryRadiusInternal : Quadtree → Vector2 → ℚ → List Entity
  | .leaf _ _ _ _ ents, center, radiusSq =>
      ents.filter (fun ent => decide (ent.position.distance center ≤ radiusSq))
  | .node _ _ _ _ ents nw ne sw se, center, radiusSq =>
      ents.filter (fun ent => decide (ent.position.distance center ≤ radiusSq))
      ++ (if nw.bounds.IntersectsCircle center radiusSq then
            nw.queryRadiusInternal center radiusSq else [])
      ++ (if ne.bounds.IntersectsCircle center radiusSq then
            ne.queryRadiusInternal center radiusSq else [])
      ++ (if sw.bounds.IntersectsCircle center radiusSq then
            sw.queryRadiusInternal center radiusSq else [])
      ++ (if se.bounds.IntersectsCircle center radiusSq then
            se.queryRadiusInternal center radiusSq else [])

/-- `Quadtree.QueryRadius`. -/
def Quadtree.queryRadius (t : Quadtree) (center : Vector2) (radius : ℚ) : List Entity :=
  t.queryRadiusInternal center (radius * radius)

/-- `Quadtree.queryBoundsInternal`. -/
def Quadtree.queryBoundsInternal : Quadtree → Rectangle → List Entity
  | .leaf _ _ _ _ ents, q =>
      ents.filter (fun ent => decide (q.Contains ent.position))
  | .node _ _ _ _ ents nw ne sw se, q =>
      ents.filter (fun ent => decide (q.Contains ent.position))
      ++ (if nw.bounds.Intersects q then nw.queryBoundsInternal q else [])
      ++ (if ne.bounds.Intersects q then ne.queryBoundsInternal q else [])
      ++ (if sw.bounds.Intersects q then sw.queryBoundsInternal q else [])
      ++ (if se.bounds.Intersects q then se.queryBoundsInternal q else [])

/-- `Quadtree.QueryBounds`. -/
def Quadtree.queryBounds (t : Quadtree) (bounds : Rectangle) : List Entity :=
  t.queryBoundsInternal bounds

/-- Structural well-formedness maintained by the engine: stored entities lie
inside their node's (half-open) bounds, children carry the exact quadrant
rectangles, depth grows by one towards a shared `maxDepth`. -/
def Quadtree.wf : Quadtree → Prop
  | .leaf b _ _ _ ents => ∀ e ∈ ents, b.Contains e.position
  | .node b _ d md ents nw ne sw se =>
      (∀ e ∈ ents, b.Contains e.position) ∧
      nw.bounds = b.nwRect ∧ ne.bounds = b.neRect ∧
      sw.bounds = b.swRect ∧ se.bounds = b.seRect ∧
      nw.depth = d + 1 ∧ ne.depth = d + 1 ∧ sw.depth = d + 1 ∧ se.depth = d + 1 ∧
      nw.maxDepth = md ∧ ne.maxDepth = md ∧ sw.maxDepth = md ∧ se.maxDepth = md ∧
      nw.wf ∧ ne.wf ∧ sw.wf ∧ se.wf

/-! ## Package `engine`: the SpatialEngine tick pipeline (part_017) -/

/-- `proto.Correction` payload (float32 narrowing of the wire codec is out of
scope; values are carried exactly). -/
structure Correction where
  entityId : ℕ
  correctX : ℚ
  correctY : ℚ
  correctVelocityX : ℚ
  correctVelocityY : ℚ
  ackSequence : ℕ
deriving DecidableEq, Repr

/-- `proto.EntityState` payload. -/
structure EntityState where
  entityId : ℕ
  x : ℚ
  y : ℚ
  velocityX : ℚ
  velocityY : ℚ
  entityType : String
deriving DecidableEq, Repr

/-- The server→client messages the engine can queue for broadcast. -/
inductive Message where
  | entityState (s : EntityState)
  | correction (c : Correction)
  | despawn (entityId : ℕ) (reason : String)
deriving DecidableEq, Repr

/-- A message handed to `queueBroadcast`, addressed to a client id. -/
abbrev QueuedMessage := String × Message

/-- `SpatialEngine.isPositionValid`: closed world-rectangle check. -/
def isPositionValid (cfg : EngineConfig) (x y : ℚ) : Prop :=
  cfg.worldBounds.minX ≤ x ∧ x ≤ cfg.worldBounds.maxX ∧
  cfg.worldBounds.minY ≤ y ∧ y ≤ cfg.worldBounds.maxY

instance (cfg : EngineConfig) (x y : ℚ) : Decidable (isPositionValid cfg x y) := by
  unfold isPositionValid
  infer_instance

/-- `SpatialEngine.generateCorrection`: a Correction carrying the entity's
current authoritative state, queued to its owning client. -/
def generateCorrection (e : Entity) : QueuedMessage :=
  (e.clientID,
   .correction ⟨e.id, e.position.x, e.position.y, e.velocity.x, e.velocity.y, e.lastSequence⟩)

/-- `SpatialEngine.validateMovement` for an entity that exists: sequence
freshness, speed bound and provisional-position bound.  The source compares
`math.Sqrt(dx*dx+dy*dy) > cfg.MaxSpeed`; over the non-negative `MaxSpeed`
enforced by configuration validation this is the squared comparison below. -/
def validateMovement (cfg : EngineConfig) (e : Entity) (delta : MovementDelta) : Prop :=
  e.lastSequence < delta.sequence ∧
  delta.deltaX * delta.deltaX + delta.deltaY * delta.deltaY ≤ cfg.maxSpeed * cfg.maxSpeed ∧
  isPositionValid cfg (e.position.x + delta.deltaX) (e.position.y + delta.deltaY)

instance (cfg : EngineConfig) (e : Entity) (delta : MovementDelta) :
    Decidable (validateMovement cfg e delta) := by
  unfold validateMovement
  infer_instance

/-- `SpatialEngine.ProcessMovementIntent` for an entity `e` of the store: an
intent that fails `validateMovement` is logged and dropped — the buffer is
unchanged and no message is queued; a valid intent is appended to the
entity's buffer. -/
def processMovementIntent (cfg : EngineConfig) (e : Entity)
    (buffer : List MovementDelta) (delta : MovementDelta) :
    List MovementDelta × List QueuedMessage :=
  if validateMovement cfg e delta then (buffer ++ [delta], [])
  else (buffer, [])

/-- One step of the `for _, delta := range deltas` loop of
`processMovementDeltas`: a delta with a fresh sequence either updates velocity
and `LastSequence` (provisional position valid) or queues one correction. -/
def processDeltaStep (cfg : EngineConfig) (acc : Entity × List QueuedMessage)
    (delta : MovementDelta) : Entity × List QueuedMessage :=
  let e := acc.1
  if e.lastSequence < delta.sequence then
    if isPositionValid cfg (e.position.x + delta.deltaX) (e.position.y + delta.deltaY) then
      ({ e with velocity := ⟨delta.deltaX, delta.deltaY⟩, lastSequence := delta.sequence },
       acc.2)
    else
      (e, acc.2 ++ [generateCorrection e])
  else acc

/-- `SpatialEngine.processMovementDeltas` restricted to one entity's buffered
deltas (the per-entity body of the loop; the buffer entry is then deleted). -/
def processMovementDeltas (cfg : EngineConfig) (e : Entity)
    (deltas : List MovementDelta) : Entity × List QueuedMessage :=
  deltas.foldl (processDeltaStep cfg) (e, [])

/-- The per-entity body of `SpatialEngine.updateEntityPositions`: the new
position is computed from the current velocity, friction 0.95 is applied to
the velocity, and then either the position is committed and the spatial index
updated, or the position is clamped to the world bounds with velocity zeroed
and one correction queued. -/
def updateOne (cfg : EngineConfig) (acc : Quadtree × List Entity × List QueuedMessage)
    (e : Entity) : Quadtree × List Entity × List QueuedMessage :=
  let t := acc.1
  let newX := e.position.x + e.velocity.x
  let newY := e.position.y + e.velocity.y
  let e1 := { e with velocity := ⟨e.velocity.x * 0.95, e.velocity.y * 0.95⟩ }
  if isPositionValid cfg newX newY then
    let oldPos := e1.position
    let e2 := { e1 with position := ⟨newX, newY⟩ }
    let t2 := (t.update e2 oldPos).1
    (t2, acc.2.1 ++ [e2], acc.2.2)
  else
    let e2 := { e1 with
      position := ⟨max cfg.worldBounds.minX (min cfg.worldBounds.maxX newX),
                   max cfg.worldBounds.minY (min cfg.worldBounds.maxY newY)⟩,
      velocity := ⟨0, 0⟩ }
    (t, acc.2.1 ++ [e2], acc.2.2 ++ [generateCorrection e2])

/-- `SpatialEngine.updateEntityPositions` over the entity list. -/
def updateEntityPositions (cfg : EngineConfig) (t : Quadtree) (es : List Entity) :
    Quadtree × List Entity × List QueuedMessage :=
  es.foldl (updateOne cfg) (t, [], [])

/-- `SpatialEngine.SpawnEntity` against an entity store and the spatial index:
positions failing `isPositionValid` return id 0; a successful create that the
quadtree refuses to index is rolled back and also returns 0. -/
def spawnEntity (cfg : EngineConfig) (entities : List Entity) (nextID : ℕ)
    (t : Quadtree) (entityType : String) (x y : ℚ) (clientID : String) :
    List Entity × ℕ × Quadtree × ℕ :=
  if isPositionValid cfg x y then
    let ent : Entity := ⟨nextID, entityType, ⟨x, y⟩, ⟨0, 0⟩, clientID, 0, []⟩
    let r := t.insert ent
    if r.2 then (entities ++ [ent], nextID + 1, r.1, nextID)
    else ((entities ++ [ent]).filter (fun e => decide (e.id ≠ nextID)), nextID + 1, t, 0)
  else (entities, nextID, t, 0)

/-! ## Package `aoi`: the AOIManager (subscriber sets, no position memory) -/

/-- `aoi.AOIEvent`. -/
structure AOIEvent where
  type : String
  entityID : ℕ
  otherID : ℕ
  position : Vector2
deriving DecidableEq, Repr

/-- Insert an id into a subscriber set modelled as a duplicate-free list
(Go `map[uint32]struct\x7b\x7d` assignment). -/
def setInsert (s : List ℕ) (i : ℕ) : List ℕ :=
  if i ∈ s then s else s ++ [i]

/-- `AOIManager.UpdateEntity`: queries the quadtree for neighbours, diffs
against the stored subscriber set, and returns the events plus the new set.
"enter" events for neighbours not yet subscribed, "exit" events for
subscribers no longer nearby, and one "move" event whenever the new
subscriber set is non-empty — regardless of whether anything moved. -/
def aoiUpdateEntity (t : Quadtree) (aoiRadius : ℚ) (current : List ℕ)
    (entityID : ℕ) (position : Vector2) : List ℕ × List AOIEvent :=
  let nearby := t.queryRadius position aoiRadius
  let step := fun (acc : List ℕ × List AOIEvent) (other : Entity) =>
    if other.id = entityID then acc
    else
      let newSubs := setInsert acc.1 other.id
      if other.id ∈ current then (newSubs, acc.2)
      else (newSubs, acc.2 ++ [⟨"enter", entityID, other.id, position⟩])
  let r := nearby.foldl step ([], [])
  let exits := (current.filter (fun i => decide (i ∉ r.1))).map
    (fun i => (⟨"exit", entityID, i, position⟩ : AOIEvent))
  let events := r.2 ++ exits
  if r.1 ≠ [] then (r.1, events ++ [⟨"move", entityID, 0, position⟩])
  else (r.1, events)

/-- `SpatialEngine.broadcastToNearby`: an EntityState for `e` queued to every
client whose entity is currently within `aoiRadius` of `position` (self
excluded). -/
def broadcastToNearby (cfg : EngineConfig) (t : Quadtree) (e : Entity)
    (position : Vector2) : List QueuedMessage :=
  let nearby := t.queryRadius position cfg.aoiRadius
  (nearby.filter (fun other => decide (other.id ≠ e.id))).map
    (fun other =>
      (other.clientID,
       .entityState ⟨e.id, e.position.x, e.position.y, e.velocity.x, e.velocity.y, e.etype⟩))

/-- `SpatialEngine.broadcastDespawnToNearby`. -/
def broadcastDespawnToNearby (cfg : EngineConfig) (t : Quadtree) (entityID : ℕ)
    (position : Vector2) : List QueuedMessage :=
  let nearby := t.queryRadius position cfg.aoiRadius
  (nearby.filter (fun other => decide (other.id ≠ entityID))).map
    (fun other => (other.clientID, .despawn entityID "out_of_aoi"))

/-- The per-entity body of `SpatialEngine.processAOIEvents`: run the AOI diff
and translate each event ("enter"/"move" → EntityState broadcast, "exit" →
despawn broadcast) into queued messages. -/
def processAOIEventsFor (cfg : EngineConfig) (t : Quadtree) (current : List ℕ)
    (e : Entity) : List ℕ × List QueuedMessage :=
  let r := aoiUpdateEntity t cfg.aoiRadius current e.id e.position
  let msgs := r.2.foldl
    (fun acc ev =>
      if ev.type = "enter" ∨ ev.type = "move" then
        acc ++ broadcastToNearby cfg t e e.position
      else if ev.type = "exit" then
        acc ++ broadcastDespawnToNearby cfg t e.id e.position
      else acc)
    []
  (r.1, msgs)

/-- Ids of a list of entities. -/
def idsOf (l : List Entity) : List ℕ :=
  l.map Entity.id

/-- Inserting a list of entities one by one through the public `Insert`
(the discipline of `SpawnEntity` and of a per-tick rebuild). -/
def insertAll (t : Quadtree) (S : List Entity) : Quadtree :=
  S.foldl (fun t e => (t.insert e).1) t

/-- The four children of a subdividing node, as a tuple invariant: each is
well-formed, carries the exact quadrant rectangle of `b`, sits at depth
`d + 1` and shares `md`. -/
def QuadWf (b : Rectangle) (d md : ℕ) (q : Quadtree × Quadtree × Quadtree × Quadtree) : Prop :=
  q.1.wf ∧ q.2.1.wf ∧ q.2.2.1.wf ∧ q.2.2.2.wf ∧
  q.1.bounds = b.nwRect ∧ q.2.1.bounds = b.neRect ∧
  q.2.2.1.bounds = b.swRect ∧ q.2.2.2.bounds = b.seRect ∧
  q.1.depth = d + 1 ∧ q.2.1.depth = d + 1 ∧ q.2.2.1.depth = d + 1 ∧ q.2.2.2.depth = d + 1 ∧
  q.1.maxDepth = md ∧ q.2.1.maxDepth = md ∧ q.2.2.1.maxDepth = md ∧ q.2.2.2.maxDepth = md

/-- Entities stored across a child tuple, in NW, NE, SW, SE order. -/
def quadToList (q : Quadtree × Quadtree × Quadtree × Quadtree) : List Entity :=
  q.1.toList ++ q.2.1.toList ++ q.2.2.1.toList ++ q.2.2.2.toList

/-- The stored entities of a tree as a multiset. -/
def Quadtree.contents (t : Quadtree) : Multiset Entity :=
  (t.toList : Multiset Entity)

/-- The stored entities of a child tuple as a multiset. -/
def quadContents (q : Quadtree × Quadtree × Quadtree × Quadtree) : Multiset Entity :=
  (quadToList q : Multiset Entity)

/-- Specification of `insertAux` at a given fuel: with enough fuel on a
well-formed tree, insertion fails exactly on positions outside the root
bounds, and success adds precisely the new entity while preserving
well-formedness and the node metadata. -/
def InsertSpec (fuel : ℕ) : Prop :=
  ∀ (t : Quadtree) (ent : Entity),
    t.wf → t.maxDepth < fuel + t.depth →
    (¬ t.bounds.Contains ent.position → Quadtree.insertAux fuel t ent = (t, false)) ∧
    (t.bounds.Contains ent.position →
      (Quadtree.insertAux fuel t ent).2 = true ∧
      ((Quadtree.insertAux fuel t ent).1).contents = ent ::ₘ t.contents ∧
      ((Quadtree.insertAux fuel t ent).1).wf ∧
      ((Quadtree.insertAux fuel t ent).1).bounds = t.bounds ∧
      ((Quadtree.insertAux fuel t ent).1).depth = t.depth ∧
      ((Quadtree.insertAux fuel t ent).1).maxDepth = t.maxDepth ∧
      ((Quadtree.insertAux fuel t ent).1).capacity = t.capacity)

/-- The sequences of the deltas `processMovementDeltas` accepts for an
entity, in acceptance order (the claim-side notion of "accepted intents",
mirroring the acceptance condition of `processDeltaStep`). -/
def acceptedSeqs (cfg : EngineConfig) (e : Entity) : List MovementDelta → List ℕ
  | [] => []
  | d :: ds =>
      if e.lastSequence < d.sequence then
        if isPositionValid cfg (e.position.x + d.deltaX) (e.position.y + d.deltaY) then
          d.sequence ::
            acceptedSeqs cfg
              { e with velocity := ⟨d.deltaX, d.deltaY⟩, lastSequence := d.sequence } ds
        else acceptedSeqs cfg e ds
      else acceptedSeqs cfg e ds

/-- The sequences of the deltas `processMovementDeltas` rejects for going out
of bounds (each such rejection queues exactly one correction). -/
def boundsRejectedSeqs (cfg : EngineConfig) (e : Entity) : List MovementDelta → List ℕ
  | [] => []
  | d :: ds =>
      if e.lastSequence < d.sequence then
        if isPositionValid cfg (e.position.x + d.deltaX) (e.position.y + d.deltaY) then
          boundsRejectedSeqs cfg
            { e with velocity := ⟨d.deltaX, d.deltaY⟩, lastSequence := d.sequence } ds
        else d.sequence :: boundsRejectedSeqs cfg e ds
      else boundsRejectedSeqs cfg e ds

/-! ## `authority.go`: MovementValidator over ℝ (faithful `math.Sqrt`) -/

/-- Vector with real components, for the validator's square-root arithmetic. -/
structure RVector2 where
  x : ℝ
  y : ℝ

/-- `proto.MovementDelta` with real delta components. -/
structure RDelta where
  entityId : ℕ
  sequence : ℕ
  deltaX : ℝ
  deltaY : ℝ
  timestamp : ℕ

/-- The entity fields `MovementValidator.Validate` reads. -/
structure REntity where
  id : ℕ
  position : RVector2
  lastSequence : ℕ

/-- World bounds with real components. -/
structure RBounds where
  minX : ℝ
  minY : ℝ
  maxX : ℝ
  maxY : ℝ

/-- `engine.ValidationResult` from `authority.go`. -/
structure ValidationResult where
  valid : Bool
  reason : String
  modified : Bool
  newDelta : Option RDelta

section ClassicalValidator

open scoped Classical

/-- `MovementValidator.limitSpeed`: uniform scaling of the delta to magnitude
`maxSpeed` when it is longer than that. -/
noncomputable def limitSpeed (delta : RDelta) (maxSpeed : ℝ) : RDelta :=
  let distance := Real.sqrt (delta.deltaX * delta.deltaX + delta.deltaY * delta.deltaY)
  if distance ≤ maxSpeed then delta
  else
    let scale := maxSpeed / distance
    { delta with deltaX := delta.deltaX * scale, deltaY := delta.deltaY * scale }

/-- `MovementValidator.isTeleportation`: original, unscaled magnitude against
the threshold `3 * maxSpeed`. -/
def isTeleportation (maxSpeed : ℝ) (delta : RDelta) : Prop :=
  Real.sqrt (delta.deltaX * delta.deltaX + delta.deltaY * delta.deltaY) > maxSpeed * 3

/-- `MovementValidator.isInBounds`. -/
def isInBoundsR (wb : RBounds) (x y : ℝ) : Prop :=
  wb.minX ≤ x ∧ x ≤ wb.maxX ∧ wb.minY ≤ y ∧ y ≤ wb.maxY

/-- `MovementValidator.clampToBounds`: delta recomputed towards the clamped
provisional position. -/
def clampToBounds (wb : RBounds) (ent : REntity) (delta : RDelta) : RDelta :=
  let newX := ent.position.x + delta.deltaX
  let newY := ent.position.y + delta.deltaY
  let clampedX := max wb.minX (min wb.maxX newX)
  let clampedY := max wb.minY (min wb.maxY newY)
  { delta with deltaX := clampedX - ent.position.x, deltaY := clampedY - ent.position.y }

/-- `MovementValidator.Validate`, in source order: sequence check, speed check
(early return with a scaled delta), teleport check, bounds check.  The speed
history bookkeeping between the teleport and bounds checks only logs and never
alters the result, so it is not represented. -/
noncomputable def mvValidate (maxSpeed : ℝ) (wb : RBounds) (ent : REntity)
    (delta : RDelta) : ValidationResult :=
  if delta.sequence ≤ ent.lastSequence then
    ⟨false, "outdated sequence", false, none⟩
  else
    let distance := Real.sqrt (delta.deltaX * delta.deltaX + delta.deltaY * delta.deltaY)
    if maxSpeed < distance then
      ⟨false, "exceeds max speed", true, some (limitSpeed delta maxSpeed)⟩
    else if isTeleportation maxSpeed delta then
      ⟨false, "teleportation detected", false, none⟩
    else
      let newX := ent.position.x + delta.deltaX
      let newY := ent.position.y + delta.deltaY
      if ¬ isInBoundsR wb newX newY then
        ⟨false, "out of bounds", true, some (clampToBounds wb ent delta)⟩
      else
        ⟨true, "", false, none⟩

end ClassicalValidator

end Aether

namespace AetherSync

/-! ## `internal/engine` of the aethersync tree: AABB quadtree and GameEngine -/

/-- `engine.Vec2`. -/
structure Vec2 where
  x : ℚ
  y : ℚ
deriving DecidableEq, Repr

/-- The entity record of the aethersync registry (string ids). -/
structure GEntity where
  id : String
  position : Vec2
  velocity : Vec2
  rotation : ℚ
  lastUpdate : ℕ
deriving DecidableEq, Repr

/-- `engine.AABB`: square box given by center and half-dimension. -/
structure AABB where
  centerX : ℚ
  centerY : ℚ
  halfDim : ℚ
deriving DecidableEq, Repr

/-- `AABB.ContainsPoint`: closed on all four sides. -/
def AABB.ContainsPoint (b : AABB) (p : Vec2) : Prop :=
  b.centerX - b.halfDim ≤ p.x ∧ p.x ≤ b.centerX + b.halfDim ∧
  b.centerY - b.halfDim ≤ p.y ∧ p.y ≤ b.centerY + b.halfDim

instance (b : AABB) (p : Vec2) : Decidable (b.ContainsPoint p) := by
  unfold AABB.ContainsPoint
  infer_instance

/-- `engine.Circle`. -/
structure Circle where
  centerX : ℚ
  centerY : ℚ
  radius : ℚ
deriving DecidableEq, Repr

/-- `Circle.ContainsPoint`: inclusive comparison with the squared radius. -/
def Circle.ContainsPoint (c : Circle) (p : Vec2) : Prop :=
  (p.x - c.centerX) * (p.x - c.centerX) + (p.y - c.centerY) * (p.y - c.centerY) ≤
    c.radius * c.radius

instance (c : Circle) (p : Vec2) : Decidable (c.ContainsPoint p) := by
  unfold Circle.ContainsPoint
  infer_instance

/-- `clamp` helper from `quadtree.go`. -/
def clamp (value minV maxV : ℚ) : ℚ :=
  if value < minV then minV else if maxV < value then maxV else value

/-- `Circle.IntersectsAABB`: closest-point test compared STRICTLY
(`< c.Radius * c.Radius` in the source) with the squared radius. -/
def Circle.IntersectsAABB (c : Circle) (b : AABB) : Prop :=
  let closestX := clamp c.centerX (b.centerX - b.halfDim) (b.centerX + b.halfDim)
  let closestY := clamp c.centerY (b.centerY - b.halfDim) (b.centerY + b.halfDim)
  (c.centerX - closestX) * (c.centerX - closestX) +
    (c.centerY - closestY) * (c.centerY - closestY) < c.radius * c.radius

instance (c : Circle) (b : AABB) : Decidable (c.IntersectsAABB b) := by
  unfold Circle.IntersectsAABB
  infer_instance

/-- `engine.Quadtree` of the aethersync tree: no depth bound, `divided` is the
`node` constructor, children in NW, NE, SW, SE order. -/
inductive Qtree where
  | leaf (boundary : AABB) (capacity : ℕ) (entities : List GEntity)
  | node (boundary : AABB) (capacity : ℕ) (entities : List GEntity)
      (nw ne sw se : Qtree)
deriving DecidableEq

def Qtree.boundary : Qtree → AABB
  | .leaf b _ _ => b
  | .node b _ _ _ _ _ _ => b

def Qtree.capacity : Qtree → ℕ
  | .leaf _ c _ => c
  | .node _ c _ _ _ _ _ => c

def Qtree.entities : Qtree → List GEntity
  | .leaf _ _ ents => ents
  | .node _ _ ents _ _ _ _ => ents

/-- All entities stored anywhere in the tree. -/
def Qtree.toList : Qtree → List GEntity
  | .leaf _ _ ents => ents
  | .node _ _ ents nw ne sw se =>
      ents ++ nw.toList ++ ne.toList ++ sw.toList ++ se.toList

/-- The child boxes of `subdivide` (note: in this tree NW/NE are the upper,
`centerY + halfDim/2`, quadrants). -/
def subdivided (b : AABB) : AABB × AABB × AABB × AABB :=
  let h := b.halfDim / 2
  (⟨b.centerX - h, b.centerY + h, h⟩, ⟨b.centerX + h, b.centerY + h, h⟩,
   ⟨b.centerX - h, b.centerY - h, h⟩, ⟨b.centerX + h, b.centerY - h, h⟩)

/-- The sequential `if qt.northWest.Insert(entity) ... ` attempts. -/
def tryChildren (ins : Qtree → GEntity → Qtree × Bool)
    (q : Qtree × Qtree × Qtree × Qtree) (ent : GEntity) :
    (Qtree × Qtree × Qtree × Qtree) × Bool :=
  let r1 := ins q.1 ent
  if r1.2 then ((r1.1, q.2.1, q.2.2.1, q.2.2.2), true)
  else
    let r2 := ins q.2.1 ent
    if r2.2 then ((q.1, r2.1, q.2.2.1, q.2.2.2), true)
    else
      let r3 := ins q.2.2.1 ent
      if r3.2 then ((q.1, q.2.1, r3.1, q.2.2.2), true)
      else
        let r4 := ins q.2.2.2 ent
        ((q.1, q.2.1, q.2.2.1, r4.1), r4.2)

/-- `Quadtree.Insert` of the aethersync tree, fuelled: a contained entity
that fits nowhere in the children stays at the parent (the border fallback of
the source), so insertion of a contained point never fails given fuel. -/
def Qtree.insertAux : ℕ → Qtree → GEntity → Qtree × Bool
  | 0, t, ent =>
      if ¬ t.boundary.ContainsPoint ent.position then (t, false)
      else
        match t with
        | .leaf b c ents =>
            if ents.length < c then (.leaf b c (ents ++ [ent]), true)
            else (.leaf b c ents, false)
        | .node b c ents nw ne sw se =>
            if ents.length < c then (.node b c (ents ++ [ent]) nw ne sw se, true)
            else (.node b c ents nw ne sw se, false)
  | fuel' + 1, t, ent =>
      if ¬ t.boundary.ContainsPoint ent.position then (t, false)
      else
        match t with
        | .leaf b c ents =>
            if ents.length < c then (.leaf b c (ents ++ [ent]), true)
            else
              let q0 := subdivided b
              let cs0 : Qtree × Qtree × Qtree × Qtree :=
                (.leaf q0.1 c [], .leaf q0.2.1 c [], .leaf q0.2.2.1 c [], .leaf q0.2.2.2 c [])
              let res := tryChildren (Qtree.insertAux fuel') cs0 ent
              if res.2 then
                (.node b c ents res.1.1 res.1.2.1 res.1.2.2.1 res.1.2.2.2, true)
              else
                (.node b c (ents ++ [ent]) res.1.1 res.1.2.1 res.1.2.2.1 res.1.2.2.2, true)
        | .node b c ents nw ne sw se =>
            if ents.length < c then (.node b c (ents ++ [ent]) nw ne sw se, true)
            else
              let res := tryChildren (Qtree.insertAux fuel') (nw, ne, sw, se) ent
              if res.2 then
                (.node b c ents res.1.1 res.1.2.1 res.1.2.2.1 res.1.2.2.2, true)
              else
                (.node b c (ents ++ [ent]) res.1.1 res.1.2.1 res.1.2.2.1 res.1.2.2.2, true)

/-- `Quadtree.QueryCircle`: the whole subtree is pruned when the query circle
fails the (strict) `IntersectsAABB` test against the node's boundary. -/
def Qtree.queryCircle : Qtree → Circle → List GEntity
  | .leaf b _ ents, q =>
      if ¬ q.IntersectsAABB b then []
      else ents.filter (fun e => decide (q.ContainsPoint e.position))
  | .node b _ ents nw ne sw se, q =>
      if ¬ q.IntersectsAABB b then []
      else
        ents.filter (fun e => decide (q.ContainsPoint e.position))
        ++ nw.queryCircle q ++ ne.queryCircle q ++ sw.queryCircle q ++ se.queryCircle q

/-! ### GameEngine.Tick: per-observer knowledge diff and broadcast -/

/-- `aetherpb.EntityState` as built by the tick (full state for a neighbour
first entering the observer's AOI). -/
structure GEntityState where
  id : String
  position : Vec2
  velocity : Vec2
  rotation : ℚ
  lastUpdate : ℕ
deriving DecidableEq, Repr

/-- `aetherpb.MovementDelta` as built by the tick (position-only update for a
known neighbour that moved). -/
structure GMovementDelta where
  id : String
  position : Vec2
  timestamp : ℕ
deriving DecidableEq, Repr

/-- `aetherpb.WorldSnapshot`: the per-observer tick envelope. -/
structure WorldSnapshot where
  entities : List GEntityState
  deltas : List GMovementDelta
deriving DecidableEq, Repr

/-- One observer's memory: observed entity id to last position sent. -/
abbrev Knowledge := List (String × Vec2)

/-- `clientKnowledge`: observer id to its knowledge map.  Go map assignment is
modelled by consing the new binding in front: `List.lookup` finds the newest. -/
abbrev ClientKnowledge := List (String × Knowledge)

/-- Rebuild of the index at the top of `Tick`: a fresh tree and one `Insert`
per registry entity.  Insertion fuel `reg.length + 1` is fixed for the tick;
entities the root box does not contain are dropped, as in the source. -/
def buildTree (boundary : AABB) (capacity : ℕ) (reg : List GEntity) : Qtree :=
  reg.foldl (fun t e => (Qtree.insertAux (reg.length + 1) t e).1)
    (Qtree.leaf boundary capacity [])

/-- The body of the `for _, e := range nearbyEntities` loop: record the
neighbour's position in the new knowledge, emit a full state if it was
unknown, a movement delta if it was known at a different position, nothing
if it was known at the same position. -/
def observeStep (knowledge : Knowledge)
    (acc : List GEntityState × List GMovementDelta × Knowledge) (e : GEntity) :
    List GEntityState × List GMovementDelta × Knowledge :=
  let lastPos := List.lookup e.id knowledge
  let newK := (e.id, e.position) :: acc.2.2
  match lastPos with
  | none =>
      (acc.1 ++ [⟨e.id, e.position, e.velocity, e.rotation, e.lastUpdate⟩], acc.2.1, newK)
  | some lp =>
      if e.position.x ≠ lp.x ∨ e.position.y ≠ lp.y then
        (acc.1, acc.2.1 ++ [⟨e.id, e.position, e.lastUpdate⟩], newK)
      else (acc.1, acc.2.1, newK)

/-- One observer's share of `GameEngine.Tick`: AOI query with the hard-coded
radius 100, diff against this observer's knowledge, commit the new knowledge,
and broadcast a snapshot unless both lists are empty. -/
def tickObserver (tree : Qtree) (know : ClientKnowledge) (o : GEntity) :
    ClientKnowledge × Option (String × WorldSnapshot) :=
  let aoi : Circle := ⟨o.position.x, o.position.y, 100⟩
  let nearby := tree.queryCircle aoi
  let knowledge := (List.lookup o.id know).getD []
  let r := nearby.foldl (observeStep knowledge) ([], [], [])
  let know2 := (o.id, r.2.2) :: know
  if r.1 = [] ∧ r.2.1 = [] then (know2, none)
  else (know2, some (o.id, ⟨r.1, r.2.1⟩))

/-- The loop body of `GameEngine.Tick` over observers. -/
def tickStep (tree : Qtree)
    (acc : ClientKnowledge × List (String × WorldSnapshot)) (o : GEntity) :
    ClientKnowledge × List (String × WorldSnapshot) :=
  let r := tickObserver tree acc.1 o
  (r.1, match r.2 with
        | none => acc.2
        | some b => acc.2 ++ [b])

/-- `GameEngine.Tick`: rebuild the tree, then run every registry entity as an
observer, accumulating knowledge commits and outbound broadcasts. -/
def gameTick (boundary : AABB) (capacity : ℕ) (reg : List GEntity)
    (know : ClientKnowledge) : ClientKnowledge × List (String × WorldSnapshot) :=
  let tree := buildTree boundary capacity reg
  reg.foldl (tickStep tree) (know, [])

/-- The AOI neighbour list `Tick` computes for an observer (radius 100). -/
def nearbyOf (tree : Qtree) (o : GEntity) : List GEntity :=
  tree.queryCircle ⟨o.position.x, o.position.y, 100⟩

/-- The knowledge an observer commits at the end of a tick: its current
neighbours' positions, newest binding first (Go map assignment modelled by
consing in iteration order). -/
def newKfun (tree : Qtree) (o : GEntity) : Knowledge :=
  ((nearbyOf tree o).map (fun e => (e.id, e.position))).reverse

end AetherSync

namespace Aether

/-! ## Quadrant geometry of the spatial quadtree -/

theorem nwRect_sub {r : Rectangle} {p : Vector2} (h : r.nwRect.Contains p) :
    r.Contains p := by
  simp only [Rectangle.nwRect, Rectangle.Contains] at h ⊢
  obtain ⟨h1, h2, h3, h4⟩ := h
  refine ⟨h1, ?_, h3, ?_⟩
  · rcases le_or_lt 0 r.width with hw | hw <;> linarith
  · rcases le_or_lt 0 r.height with hh | hh <;> linarith

theorem neRect_sub {r : Rectangle} {p : Vector2} (h : r.neRect.Contains p) :
    r.Contains p := by
  simp only [Rectangle.neRect, Rectangle.Contains] at h ⊢
  obtain ⟨h1, h2, h3, h4⟩ := h
  refine ⟨?_, by linarith, h3, ?_⟩
  · rcases le_or_lt 0 r.width with hw | hw <;> linarith
  · rcases le_or_lt 0 r.height with hh | hh <;> linarith

theorem swRect_sub {r : Rectangle} {p : Vector2} (h : r.swRect.Contains p) :
    r.Contains p := by
  simp only [Rectangle.swRect, Rectangle.Contains] at h ⊢
  obtain ⟨h1, h2, h3, h4⟩ := h
  refine ⟨h1, ?_, ?_, by linarith⟩
  · rcases le_or_lt 0 r.width with hw | hw <;> linarith
  · rcases le_or_lt 0 r.height with hh | hh <;> linarith

theorem seRect_sub {r : Rectangle} {p : Vector2} (h : r.seRect.Contains p) :
    r.Contains p := by
  simp only [Rectangle.seRect, Rectangle.Contains] at h ⊢
  obtain ⟨h1, h2, h3, h4⟩ := h
  refine ⟨?_, by linarith, ?_, by linarith⟩
  · rcases le_or_lt 0 r.width with hw | hw <;> linarith
  · rcases le_or_lt 0 r.height with hh | hh <;> linarith

/-- A point of a rectangle lies in one of its four half-open quadrants. -/
theorem contains_quadrant {r : Rectangle} {p : Vector2} (h : r.Contains p) :
    r.nwRect.Contains p ∨ r.neRect.Contains p ∨ r.swRect.Contains p ∨
      r.seRect.Contains p := by
  simp only [Rectangle.Contains, Rectangle.nwRect, Rectangle.neRect,
    Rectangle.swRect, Rectangle.seRect] at h ⊢
  obtain ⟨h1, h2, h3, h4⟩ := h
  rcases lt_or_le p.x (r.x + r.width / 2) with hx | hx <;>
    rcases lt_or_le p.y (r.y + r.height / 2) with hy | hy
  · exact Or.inl ⟨h1, hx, h3, hy⟩
  · exact Or.inr (Or.inr (Or.inl ⟨h1, hx, hy, by linarith⟩))
  · exact Or.inr (Or.inl ⟨hx, by linarith, h3, hy⟩)
  · exact Or.inr (Or.inr (Or.inr ⟨hx, by linarith, hy, by linarith⟩))

/-- Two rectangles sharing a member point intersect. -/
theorem intersects_of_common {r q : Rectangle} {p : Vector2}
    (hr : r.Contains p) (hq : q.Contains p) : r.Intersects q := by
  simp only [Rectangle.Contains] at hr hq
  simp only [Rectangle.Intersects]
  push_neg
  obtain ⟨a1, a2, a3, a4⟩ := hr
  obtain ⟨b1, b2, b3, b4⟩ := hq
  exact ⟨by linarith, by linarith, by linarith, by linarith⟩

/-- The squared distance from `c` to the clamp of `c` into `[lo, hi]` is at
most the squared distance from `c` to any `v` of `[lo, hi]`. -/
theorem clamp_closer {lo hi c v : ℚ} (h1 : lo ≤ v) (h2 : v ≤ hi) :
    (c - max lo (min c hi)) * (c - max lo (min c hi)) ≤ (c - v) * (c - v) := by
  rcases le_total c lo with hc1 | hc1
  · have hmin : min c hi = c := min_eq_left (by linarith)
    have hmax : max lo c = lo := max_eq_left hc1
    rw [hmin, hmax]
    nlinarith
  · rcases le_total c hi with hc2 | hc2
    · have hmin : min c hi = c := min_eq_left hc2
      have hmax : max lo c = c := max_eq_right hc1
      rw [hmin, hmax]
      nlinarith
    · have hmin : min c hi = hi := min_eq_right hc2
      have hmax : max lo hi = hi := max_eq_right (by linarith)
      rw [hmin, hmax]
      nlinarith

/-- A rectangle holding a point within the query radius passes the
closest-point circle test. -/
theorem intersectsCircle_of_close {r : Rectangle} {p center : Vector2} {radiusSq : ℚ}
    (hr : r.Contains p) (hd : p.distance center ≤ radiusSq) :
    r.IntersectsCircle center radiusSq := by
  simp only [Rectangle.Contains] at hr
  simp only [Rectangle.IntersectsCircle, Vector2.distance] at hd ⊢
  obtain ⟨h1, h2, h3, h4⟩ := hr
  have hx := @clamp_closer r.x (r.x + r.width) center.x p.x h1 (le_of_lt h2)
  have hy := @clamp_closer r.y (r.y + r.height) center.y p.y h3 (le_of_lt h4)
  nlinarith [hx, hy]


/-! ## Structural lemmas for the spatial quadtree -/

theorem wf_toList_contains :
    ∀ t : Quadtree, t.wf → ∀ e ∈ t.toList, t.bounds.Contains e.position := by
  intro t
  induction t with
  | leaf b c d md ents =>
      intro hwf e he
      simp only [Quadtree.toList] at he
      simp only [Quadtree.wf] at hwf
      exact hwf e he
  | node b c d md ents nw ne sw se ihnw ihne ihsw ihse =>
      intro hwf e he
      simp only [Quadtree.wf] at hwf
      obtain ⟨hents, hbnw, hbne, hbsw, hbse, _, _, _, _, _, _, _, _,
        hwnw, hwne, hwsw, hwse⟩ := hwf
      simp only [Quadtree.toList, List.mem_append] at he
      simp only [Quadtree.bounds]
      rcases he with (((he | he) | he) | he) | he
      · exact hents e he
      · exact nwRect_sub (hbnw ▸ ihnw hwnw e he)
      · exact neRect_sub (hbne ▸ ihne hwne e he)
      · exact swRect_sub (hbsw ▸ ihsw hwsw e he)
      · exact seRect_sub (hbse ▸ ihse hwse e he)

theorem quadWf_subdivideChildren (b : Rectangle) (c d md : ℕ) :
    QuadWf b d md (subdivideChildren b c d md) := by
  simp [QuadWf, subdivideChildren, Quadtree.wf, Quadtree.bounds, Quadtree.depth,
    Quadtree.maxDepth]

theorem quadToList_subdivideChildren (b : Rectangle) (c d md : ℕ) :
    quadToList (subdivideChildren b c d md) = [] := by
  simp [quadToList, subdivideChildren, Quadtree.toList]

theorem tryFour_eq_first (ins : Quadtree → Entity → Quadtree × Bool)
    (q : Quadtree × Quadtree × Quadtree × Quadtree) (x : Entity)
    (h : (ins q.1 x).2 = true) :
    tryFour ins q x = (((ins q.1 x).1, q.2.1, q.2.2.1, q.2.2.2), true) := by
  simp [tryFour, h]

theorem tryFour_eq_second (ins : Quadtree → Entity → Quadtree × Bool)
    (q : Quadtree × Quadtree × Quadtree × Quadtree) (x : Entity)
    (h1 : (ins q.1 x).2 = false) (h2 : (ins q.2.1 x).2 = true) :
    tryFour ins q x = ((q.1, (ins q.2.1 x).1, q.2.2.1, q.2.2.2), true) := by
  simp [tryFour, h1, h2]

theorem tryFour_eq_third (ins : Quadtree → Entity → Quadtree × Bool)
    (q : Quadtree × Quadtree × Quadtree × Quadtree) (x : Entity)
    (h1 : (ins q.1 x).2 = false) (h2 : (ins q.2.1 x).2 = false)
    (h3 : (ins q.2.2.1 x).2 = true) :
    tryFour ins q x = ((q.1, q.2.1, (ins q.2.2.1 x).1, q.2.2.2), true) := by
  simp [tryFour, h1, h2, h3]

theorem tryFour_eq_fourth (ins : Quadtree → Entity → Quadtree × Bool)
    (q : Quadtree × Quadtree × Quadtree × Quadtree) (x : Entity)
    (h1 : (ins q.1 x).2 = false) (h2 : (ins q.2.1 x).2 = false)
    (h3 : (ins q.2.2.1 x).2 = false) :
    tryFour ins q x = ((q.1, q.2.1, q.2.2.1, (ins q.2.2.2 x).1), (ins q.2.2.2 x).2) := by
  simp [tryFour, h1, h2, h3]

/-- A well-formed child tuple absorbs any entity its parent rectangle
contains: the first child whose quadrant contains the point takes it. -/
theorem tryFour_step {fuel : ℕ} (ih : InsertSpec fuel) {b : Rectangle} {d md : ℕ}
    (hdm : md < fuel + (d + 1))
    {q : Quadtree × Quadtree × Quadtree × Quadtree}
    (hq : QuadWf b d md q) {x : Entity} (hx : b.Contains x.position) :
    (tryFour (Quadtree.insertAux fuel) q x).2 = true ∧
    quadContents (tryFour (Quadtree.insertAux fuel) q x).1 = x ::ₘ quadContents q ∧
    QuadWf b d md (tryFour (Quadtree.insertAux fuel) q x).1 := by
  obtain ⟨q1, q2, q3, q4⟩ := q
  simp only [QuadWf] at hq
  obtain ⟨hw1, hw2, hw3, hw4, hb1, hb2, hb3, hb4, hd1, hd2, hd3, hd4,
    hm1, hm2, hm3, hm4⟩ := hq
  have c1 : q1.maxDepth < fuel + q1.depth := by rw [hm1, hd1]; exact hdm
  have c2 : q2.maxDepth < fuel + q2.depth := by rw [hm2, hd2]; exact hdm
  have c3 : q3.maxDepth < fuel + q3.depth := by rw [hm3, hd3]; exact hdm
  have c4 : q4.maxDepth < fuel + q4.depth := by rw [hm4, hd4]; exact hdm
  by_cases h1 : b.nwRect.Contains x.position
  · obtain ⟨hs, hcont, hwf2, hbb, hdd, hmm, hcc⟩ :=
      (ih q1 x hw1 c1).2 (by rw [hb1]; exact h1)
    rw [tryFour_eq_first _ _ _ hs]
    refine ⟨rfl, ?_, ?_⟩
    · simp only [quadContents, quadToList, Quadtree.contents] at hcont ⊢
      simp at hcont ⊢
      simpa using hcont.append_right (q2.toList ++ (q3.toList ++ q4.toList))
    · simp only [QuadWf]
      exact ⟨hwf2, hw2, hw3, hw4, hbb.trans hb1, hb2, hb3, hb4,
        hdd.trans hd1, hd2, hd3, hd4, hmm.trans hm1, hm2, hm3, hm4⟩
  · have hne1 : Quadtree.insertAux fuel q1 x = (q1, false) :=
      (ih q1 x hw1 c1).1 (by rw [hb1]; exact h1)
    have hf1 : (Quadtree.insertAux fuel q1 x).2 = false := by rw [hne1]
    by_cases h2 : b.neRect.Contains x.position
    · obtain ⟨hs, hcont, hwf2, hbb, hdd, hmm, hcc⟩ :=
        (ih q2 x hw2 c2).2 (by rw [hb2]; exact h2)
      rw [tryFour_eq_second _ _ _ hf1 hs]
      refine ⟨rfl, ?_, ?_⟩
      · simp only [quadContents, quadToList, Quadtree.contents] at hcont ⊢
        simp at hcont ⊢
        have p2 : ((Quadtree.insertAux fuel q2 x).1.toList ++
            (q3.toList ++ q4.toList)).Perm (x :: (q2.toList ++ (q3.toList ++ q4.toList))) := by
          simpa using hcont.append_right (q3.toList ++ q4.toList)
        exact (List.Perm.append_left _ p2).trans List.perm_middle
      · simp only [QuadWf]
        exact ⟨hw1, hwf2, hw3, hw4, hb1, hbb.trans hb2, hb3, hb4,
          hd1, hdd.trans hd2, hd3, hd4, hm1, hmm.trans hm2, hm3, hm4⟩
    · have hne2 : Quadtree.insertAux fuel q2 x = (q2, false) :=
        (ih q2 x hw2 c2).1 (by rw [hb2]; exact h2)
      have hf2 : (Quadtree.insertAux fuel q2 x).2 = false := by rw [hne2]
      by_cases h3 : b.swRect.Contains x.position
      · obtain ⟨hs, hcont, hwf2, hbb, hdd, hmm, hcc⟩ :=
          (ih q3 x hw3 c3).2 (by rw [hb3]; exact h3)
        rw [tryFour_eq_third _ _ _ hf1 hf2 hs]
        refine ⟨rfl, ?_, ?_⟩
        · simp only [quadContents, quadToList, Quadtree.contents] at hcont ⊢
          simp at hcont ⊢
          have p3 : ((Quadtree.insertAux fuel q3 x).1.toList ++ q4.toList).Perm
              (x :: (q3.toList ++ q4.toList)) := by
            simpa using hcont.append_right q4.toList
          have p2 : (q2.toList ++ ((Quadtree.insertAux fuel q3 x).1.toList ++
              q4.toList)).Perm (x :: (q2.toList ++ (q3.toList ++ q4.toList))) :=
            (List.Perm.append_left _ p3).trans List.perm_middle
          exact (List.Perm.append_left _ p2).trans List.perm_middle
        · simp only [QuadWf]
          exact ⟨hw1, hw2, hwf2, hw4, hb1, hb2, hbb.trans hb3, hb4,
            hd1, hd2, hdd.trans hd3, hd4, hm1, hm2, hmm.trans hm3, hm4⟩
      · have hne3 : Quadtree.insertAux fuel q3 x = (q3, false) :=
          (ih q3 x hw3 c3).1 (by rw [hb3]; exact h3)
        have hf3 : (Quadtree.insertAux fuel q3 x).2 = false := by rw [hne3]
        have h4 : b.seRect.Contains x.position := by
          rcases contains_quadrant hx with h | h | h | h
          exacts [absurd h h1, absurd h h2, absurd h h3, h]
        obtain ⟨hs, hcont, hwf2, hbb, hdd, hmm, hcc⟩ :=
          (ih q4 x hw4 c4).2 (by rw [hb4]; exact h4)
        rw [tryFour_eq_fourth _ _ _ hf1 hf2 hf3]
        refine ⟨hs, ?_, ?_⟩
        · simp only [quadContents, quadToList, Quadtree.contents] at hcont ⊢
          simp at hcont ⊢
          have p3 : (q3.toList ++ (Quadtree.insertAux fuel q4 x).1.toList).Perm
              (x :: (q3.toList ++ q4.toList)) :=
            (List.Perm.append_left _ hcont).trans List.perm_middle
          have p2 : (q2.toList ++ (q3.toList ++
              (Quadtree.insertAux fuel q4 x).1.toList)).Perm
              (x :: (q2.toList ++ (q3.toList ++ q4.toList))) :=
            (List.Perm.append_left _ p3).trans List.perm_middle
          exact (List.Perm.append_left _ p2).trans List.perm_middle
        · simp only [QuadWf]
          exact ⟨hw1, hw2, hw3, hwf2, hb1, hb2, hb3, hbb.trans hb4,
            hd1, hd2, hd3, hdd.trans hd4, hm1, hm2, hm3, hmm.trans hm4⟩

/-- Redistribution of a list of parent-contained entities over a well-formed
child tuple (the re-insertion loop of `subdivide`): nothing is dropped. -/
theorem redistribute_step {fuel : ℕ} (ih : InsertSpec fuel) {b : Rectangle} {d md : ℕ}
    (hdm : md < fuel + (d + 1)) :
    ∀ (l : List Entity) (q : Quadtree × Quadtree × Quadtree × Quadtree),
      QuadWf b d md q → (∀ x ∈ l, b.Contains x.position) →
      QuadWf b d md (l.foldl (fun q x => (tryFour (Quadtree.insertAux fuel) q x).1) q) ∧
      quadContents (l.foldl (fun q x => (tryFour (Quadtree.insertAux fuel) q x).1) q) =
        (l : Multiset Entity) + quadContents q := by
  intro l
  induction l with
  | nil =>
      intro q hq _
      exact ⟨hq, by simp⟩
  | cons x xs ihl =>
      intro q hq hl
      have hx := hl x (by simp)
      obtain ⟨_, hcont, hwf2⟩ := tryFour_step ih hdm hq hx
      have hrest := ihl (tryFour (Quadtree.insertAux fuel) q x).1 hwf2
        (fun y hy => hl y (by simp [hy]))
      simp only [List.foldl_cons]
      refine ⟨hrest.1, ?_⟩
      rw [hrest.2, hcont]
      have hxx : ((x :: xs : List Entity) : Multiset Entity) =
          x ::ₘ (xs : Multiset Entity) := by simp
      rw [hxx, ← Multiset.singleton_add, ← Multiset.singleton_add]
      abel

theorem insert_spec_all : ∀ fuel : ℕ, InsertSpec fuel := by
  intro fuel
  induction fuel with
  | zero =>
      intro t ent hwf hfuel
      refine ⟨?_, ?_⟩
      · intro hnc
        simp only [Quadtree.insertAux]
        rw [if_pos hnc]
      · intro hc
        cases t with
        | leaf b c d md ents =>
            simp only [Quadtree.bounds] at hc
            simp only [Quadtree.maxDepth, Quadtree.depth] at hfuel
            simp only [Quadtree.wf] at hwf
            have heq : Quadtree.insertAux 0 (Quadtree.leaf b c d md ents) ent =
                (Quadtree.leaf b c d md (ents ++ [ent]), true) := by
              simp only [Quadtree.insertAux, Quadtree.bounds]
              rw [if_neg (not_not_intro hc), if_pos (Or.inr (by omega : md ≤ d))]
            rw [heq]
            refine ⟨rfl, by simp [Quadtree.contents, Quadtree.toList], ?_, rfl, rfl, rfl, rfl⟩
            simp only [Quadtree.wf]
            intro e he
            rcases List.mem_append.mp he with h | h
            · exact hwf e h
            · rw [List.mem_singleton.mp h]; exact hc
        | node b c d md ents nw ne sw se =>
            simp only [Quadtree.bounds] at hc
            simp only [Quadtree.maxDepth, Quadtree.depth] at hfuel
            simp only [Quadtree.wf] at hwf
            obtain ⟨hents, hrest⟩ := hwf
            have heq : Quadtree.insertAux 0 (Quadtree.node b c d md ents nw ne sw se) ent =
                (Quadtree.node b c d md (ents ++ [ent]) nw ne sw se, true) := by
              simp only [Quadtree.insertAux, Quadtree.bounds]
              rw [if_neg (not_not_intro hc), if_pos (Or.inr (by omega : md ≤ d))]
            rw [heq]
            refine ⟨rfl, ?_, ?_, rfl, rfl, rfl, rfl⟩
            · simp only [Quadtree.contents, Quadtree.toList]
              refine Multiset.coe_eq_coe.mpr ?_
              simp only [List.append_assoc, List.singleton_append, List.cons_append]
              exact List.perm_middle
            · simp only [Quadtree.wf]
              refine ⟨?_, hrest⟩
              intro e he
              rcases List.mem_append.mp he with h | h
              · exact hents e h
              · rw [List.mem_singleton.mp h]; exact hc
  | succ fuel' ih =>
      intro t ent hwf hfuel
      refine ⟨?_, ?_⟩
      · intro hnc
        simp only [Quadtree.insertAux]
        rw [if_pos hnc]
      · intro hc
        cases t with
        | leaf b c d md ents =>
            simp only [Quadtree.bounds] at hc
            simp only [Quadtree.maxDepth, Quadtree.depth] at hfuel
            simp only [Quadtree.wf] at hwf
            by_cases hcap : ents.length < c ∨ md ≤ d
            · have heq : Quadtree.insertAux (fuel' + 1) (Quadtree.leaf b c d md ents) ent =
                  (Quadtree.leaf b c d md (ents ++ [ent]), true) := by
                simp only [Quadtree.insertAux, Quadtree.bounds]
                rw [if_neg (not_not_intro hc), if_pos hcap]
              rw [heq]
              refine ⟨rfl, by simp [Quadtree.contents, Quadtree.toList], ?_, rfl, rfl, rfl, rfl⟩
              simp only [Quadtree.wf]
              intro e he
              rcases List.mem_append.mp he with h | h
              · exact hwf e h
              · rw [List.mem_singleton.mp h]; exact hc
            · have hdm2 : md < fuel' + (d + 1) := by omega
              have hred := redistribute_step ih hdm2 ents (subdivideChildren b c d md)
                (quadWf_subdivideChildren b c d md) hwf
              have htry := tryFour_step ih hdm2 hred.1 hc
              obtain ⟨hflag, hcontq, hwfq⟩ := htry
              have heq : Quadtree.insertAux (fuel' + 1) (Quadtree.leaf b c d md ents) ent =
                  (Quadtree.node b c d md []
                    (tryFour (Quadtree.insertAux fuel')
                      (List.foldl (fun q x => (tryFour (Quadtree.insertAux fuel') q x).1)
                        (subdivideChildren b c d md) ents) ent).1.1
                    (tryFour (Quadtree.insertAux fuel')
                      (List.foldl (fun q x => (tryFour (Quadtree.insertAux fuel') q x).1)
                        (subdivideChildren b c d md) ents) ent).1.2.1
                    (tryFour (Quadtree.insertAux fuel')
                      (List.foldl (fun q x => (tryFour (Quadtree.insertAux fuel') q x).1)
                        (subdivideChildren b c d md) ents) ent).1.2.2.1
                    (tryFour (Quadtree.insertAux fuel')
                      (List.foldl (fun q x => (tryFour (Quadtree.insertAux fuel') q x).1)
                        (subdivideChildren b c d md) ents) ent).1.2.2.2,
                   (tryFour (Quadtree.insertAux fuel')
                      (List.foldl (fun q x => (tryFour (Quadtree.insertAux fuel') q x).1)
                        (subdivideChildren b c d md) ents) ent).2) := by
                simp only [Quadtree.insertAux, Quadtree.bounds]
                rw [if_neg (not_not_intro hc), if_neg hcap]
              rw [heq]
              set R := tryFour (Quadtree.insertAux fuel')
                (List.foldl (fun q x => (tryFour (Quadtree.insertAux fuel') q x).1)
                  (subdivideChildren b c d md) ents) ent with hR
              simp only [QuadWf] at hwfq
              obtain ⟨w1, w2, w3, w4, bb1, bb2, bb3, bb4, dd1, dd2, dd3, dd4,
                mm1, mm2, mm3, mm4⟩ := hwfq
              refine ⟨hflag, ?_, ?_, rfl, rfl, rfl, rfl⟩
              · have h1 : (Quadtree.node b c d md [] R.1.1 R.1.2.1 R.1.2.2.1
                    R.1.2.2.2).contents = quadContents R.1 := by
                  simp [Quadtree.contents, Quadtree.toList, quadContents, quadToList]
                rw [h1, hcontq, hred.2]
                simp [quadContents, quadToList_subdivideChildren, Quadtree.contents,
                  Quadtree.toList]
              · simp only [Quadtree.wf]
                exact ⟨by simp, bb1, bb2, bb3, bb4, dd1, dd2, dd3, dd4,
                  mm1, mm2, mm3, mm4, w1, w2, w3, w4⟩
        | node b c d md ents nw ne sw se =>
            simp only [Quadtree.bounds] at hc
            simp only [Quadtree.maxDepth, Quadtree.depth] at hfuel
            simp only [Quadtree.wf] at hwf
            obtain ⟨hents, hbnw, hbne, hbsw, hbse, hdnw, hdne, hdsw, hdse,
              hmnw, hmne, hmsw, hmse, hwnw, hwne, hwsw, hwse⟩ := hwf
            by_cases hcap : ents.length < c ∨ md ≤ d
            · have heq : Quadtree.insertAux (fuel' + 1)
                  (Quadtree.node b c d md ents nw ne sw se) ent =
                  (Quadtree.node b c d md (ents ++ [ent]) nw ne sw se, true) := by
                simp only [Quadtree.insertAux, Quadtree.bounds]
                rw [if_neg (not_not_intro hc), if_pos hcap]
              rw [heq]
              refine ⟨rfl, ?_, ?_, rfl, rfl, rfl, rfl⟩
              · simp only [Quadtree.contents, Quadtree.toList]
                refine Multiset.coe_eq_coe.mpr ?_
                simp only [List.append_assoc, List.singleton_append, List.cons_append]
                exact List.perm_middle
              · simp only [Quadtree.wf]
                refine ⟨?_, hbnw, hbne, hbsw, hbse, hdnw, hdne, hdsw, hdse,
                  hmnw, hmne, hmsw, hmse, hwnw, hwne, hwsw, hwse⟩
                intro e he
                rcases List.mem_append.mp he with h | h
                · exact hents e h
                · rw [List.mem_singleton.mp h]; exact hc
            · have hdm2 : md < fuel' + (d + 1) := by omega
              have hquad : QuadWf b d md (nw, ne, sw, se) := by
                simp only [QuadWf]
                exact ⟨hwnw, hwne, hwsw, hwse, hbnw, hbne, hbsw, hbse,
                  hdnw, hdne, hdsw, hdse, hmnw, hmne, hmsw, hmse⟩
              have htry := tryFour_step ih hdm2 hquad hc
              obtain ⟨hflag, hcontq, hwfq⟩ := htry
              have heq : Quadtree.insertAux (fuel' + 1)
                  (Quadtree.node b c d md ents nw ne sw se) ent =
                  (Quadtree.node b c d md ents
                    (tryFour (Quadtree.insertAux fuel') (nw, ne, sw, se) ent).1.1
                    (tryFour (Quadtree.insertAux fuel') (nw, ne, sw, se) ent).1.2.1
                    (tryFour (Quadtree.insertAux fuel') (nw, ne, sw, se) ent).1.2.2.1
                    (tryFour (Quadtree.insertAux fuel') (nw, ne, sw, se) ent).1.2.2.2,
                   (tryFour (Quadtree.insertAux fuel') (nw, ne, sw, se) ent).2) := by
                simp only [Quadtree.insertAux, Quadtree.bounds]
                rw [if_neg (not_not_intro hc), if_neg hcap]
              rw [heq]
              set R := tryFour (Quadtree.insertAux fuel') (nw, ne, sw, se) ent with hR
              simp only [QuadWf] at hwfq
              obtain ⟨w1, w2, w3, w4, bb1, bb2, bb3, bb4, dd1, dd2, dd3, dd4,
                mm1, mm2, mm3, mm4⟩ := hwfq
              refine ⟨hflag, ?_, ?_, rfl, rfl, rfl, rfl⟩
              · have h1 : (Quadtree.node b c d md ents R.1.1 R.1.2.1 R.1.2.2.1
                    R.1.2.2.2).contents = (ents : Multiset Entity) + quadContents R.1 := by
                  simp [Quadtree.contents, Quadtree.toList, quadContents, quadToList,
                    ← Multiset.singleton_add]
                have h2 : (Quadtree.node b c d md ents nw ne sw se).contents =
                    (ents : Multiset Entity) + quadContents (nw, ne, sw, se) := by
                  simp [Quadtree.contents, Quadtree.toList, quadContents, quadToList,
                    ← Multiset.singleton_add]
                rw [h1, hcontq, h2, ← Multiset.singleton_add, ← Multiset.singleton_add]
                abel
              · simp only [Quadtree.wf]
                exact ⟨hents, bb1, bb2, bb3, bb4, dd1, dd2, dd3, dd4,
                  mm1, mm2, mm3, mm4, w1, w2, w3, w4⟩

/-- On a well-formed tree, the rectangle query with its pruning equals a plain
filter of everything stored: pruning a child whose rectangle misses the query
never loses a match. -/
theorem queryBounds_eq_filter (q : Rectangle) :
    ∀ t : Quadtree, t.wf →
      t.queryBoundsInternal q = t.toList.filter (fun e => decide (q.Contains e.position)) := by
  intro t
  induction t with
  | leaf b c d md ents =>
      intro _
      simp [Quadtree.queryBoundsInternal, Quadtree.toList]
  | node b c d md ents nw ne sw se ihnw ihne ihsw ihse =>
      intro hwf
      simp only [Quadtree.wf] at hwf
      obtain ⟨hents, hbnw, hbne, hbsw, hbse, _, _, _, _, _, _, _, _,
        hwnw, hwne, hwsw, hwse⟩ := hwf
      have hnw : (if nw.bounds.Intersects q then nw.queryBoundsInternal q else []) =
          nw.toList.filter (fun e => decide (q.Contains e.position)) := by
        by_cases hint : nw.bounds.Intersects q
        · rw [if_pos hint, ihnw hwnw]
        · rw [if_neg hint]
          symm
          rw [List.filter_eq_nil_iff]
          intro e he
          simp only [decide_eq_true_eq]
          intro hqc
          exact hint (intersects_of_common (wf_toList_contains nw hwnw e he) hqc)
      have hne2 : (if ne.bounds.Intersects q then ne.queryBoundsInternal q else []) =
          ne.toList.filter (fun e => decide (q.Contains e.position)) := by
        by_cases hint : ne.bounds.Intersects q
        · rw [if_pos hint, ihne hwne]
        · rw [if_neg hint]
          symm
          rw [List.filter_eq_nil_iff]
          intro e he
          simp only [decide_eq_true_eq]
          intro hqc
          exact hint (intersects_of_common (wf_toList_contains ne hwne e he) hqc)
      have hsw : (if sw.bounds.Intersects q then sw.queryBoundsInternal q else []) =
          sw.toList.filter (fun e => decide (q.Contains e.position)) := by
        by_cases hint : sw.bounds.Intersects q
        · rw [if_pos hint, ihsw hwsw]
        · rw [if_neg hint]
          symm
          rw [List.filter_eq_nil_iff]
          intro e he
          simp only [decide_eq_true_eq]
          intro hqc
          exact hint (intersects_of_common (wf_toList_contains sw hwsw e he) hqc)
      have hse : (if se.bounds.Intersects q then se.queryBoundsInternal q else []) =
          se.toList.filter (fun e => decide (q.Contains e.position)) := by
        by_cases hint : se.bounds.Intersects q
        · rw [if_pos hint, ihse hwse]
        · rw [if_neg hint]
          symm
          rw [List.filter_eq_nil_iff]
          intro e he
          simp only [decide_eq_true_eq]
          intro hqc
          exact hint (intersects_of_common (wf_toList_contains se hwse e he) hqc)
      simp only [Quadtree.queryBoundsInternal, Quadtree.toList, List.filter_append]
      rw [hnw, hne2, hsw, hse]

/-- On a well-formed tree, the radius query with circle pruning equals a plain
filter by squared distance. -/
theorem queryRadiusInternal_eq_filter (center : Vector2) (radiusSq : ℚ) :
    ∀ t : Quadtree, t.wf →
      t.queryRadiusInternal center radiusSq =
        t.toList.filter (fun e => decide (e.position.distance center ≤ radiusSq)) := by
  intro t
  induction t with
  | leaf b c d md ents =>
      intro _
      simp [Quadtree.queryRadiusInternal, Quadtree.toList]
  | node b c d md ents nw ne sw se ihnw ihne ihsw ihse =>
      intro hwf
      simp only [Quadtree.wf] at hwf
      obtain ⟨hents, hbnw, hbne, hbsw, hbse, _, _, _, _, _, _, _, _,
        hwnw, hwne, hwsw, hwse⟩ := hwf
      have hnw : (if nw.bounds.IntersectsCircle center radiusSq then
          nw.queryRadiusInternal center radiusSq else []) =
          nw.toList.filter (fun e => decide (e.position.distance center ≤ radiusSq)) := by
        by_cases hint : nw.bounds.IntersectsCircle center radiusSq
        · rw [if_pos hint, ihnw hwnw]
        · rw [if_neg hint]
          symm
          rw [List.filter_eq_nil_iff]
          intro e he
          simp only [decide_eq_true_eq]
          intro hqc
          exact hint (intersectsCircle_of_close (wf_toList_contains nw hwnw e he) hqc)
      have hne2 : (if ne.bounds.IntersectsCircle center radiusSq then
          ne.queryRadiusInternal center radiusSq else []) =
          ne.toList.filter (fun e => decide (e.position.distance center ≤ radiusSq)) := by
        by_cases hint : ne.bounds.IntersectsCircle center radiusSq
        · rw [if_pos hint, ihne hwne]
        · rw [if_neg hint]
          symm
          rw [List.filter_eq_nil_iff]
          intro e he
          simp only [decide_eq_true_eq]
          intro hqc
          exact hint (intersectsCircle_of_close (wf_toList_contains ne hwne e he) hqc)
      have hsw : (if sw.bounds.IntersectsCircle center radiusSq then
          sw.queryRadiusInternal center radiusSq else []) =
          sw.toList.filter (fun e => decide (e.position.distance center ≤ radiusSq)) := by
        by_cases hint : sw.bounds.IntersectsCircle center radiusSq
        · rw [if_pos hint, ihsw hwsw]
        · rw [if_neg hint]
          symm
          rw [List.filter_eq_nil_iff]
          intro e he
          simp only [decide_eq_true_eq]
          intro hqc
          exact hint (intersectsCircle_of_close (wf_toList_contains sw hwsw e he) hqc)
      have hse : (if se.bounds.IntersectsCircle center radiusSq then
          se.queryRadiusInternal center radiusSq else []) =
          se.toList.filter (fun e => decide (e.position.distance center ≤ radiusSq)) := by
        by_cases hint : se.bounds.IntersectsCircle center radiusSq
        · rw [if_pos hint, ihse hwse]
        · rw [if_neg hint]
          symm
          rw [List.filter_eq_nil_iff]
          intro e he
          simp only [decide_eq_true_eq]
          intro hqc
          exact hint (intersectsCircle_of_close (wf_toList_contains se hwse e he) hqc)
      simp only [Quadtree.queryRadiusInternal, Quadtree.toList, List.filter_append]
      rw [hnw, hne2, hsw, hse]

/-- `QueryRadius` on a well-formed tree is the exact inclusive-distance filter. -/
theorem queryRadius_eq_filter (t : Quadtree) (center : Vector2) (radius : ℚ)
    (hwf : t.wf) :
    t.queryRadius center radius =
      t.toList.filter (fun e => decide (e.position.distance center ≤ radius * radius)) :=
  queryRadiusInternal_eq_filter center (radius * radius) t hwf

/-- Repeated public insertion: all contained entities are indexed, exactly
once each, preserving well-formedness and the root metadata. -/
theorem insertAll_spec :
    ∀ (S : List Entity) (t : Quadtree), t.wf →
      (∀ e ∈ S, t.bounds.Contains e.position) →
      (insertAll t S).wf ∧
      (insertAll t S).contents = (S : Multiset Entity) + t.contents ∧
      (insertAll t S).bounds = t.bounds ∧
      (insertAll t S).maxDepth = t.maxDepth ∧
      (insertAll t S).depth = t.depth := by
  intro S
  induction S with
  | nil =>
      intro t hwf _
      exact ⟨hwf, by simp [insertAll], rfl, rfl, rfl⟩
  | cons x xs ihl =>
      intro t hwf hcont
      have hfuel : t.maxDepth < (t.maxDepth + 1) + t.depth := by omega
      obtain ⟨hs, hcnt, hwf2, hb2, hd2, hm2, hc2⟩ :=
        (insert_spec_all (t.maxDepth + 1) t x hwf hfuel).2 (hcont x (by simp))
      have hstep : insertAll t (x :: xs) = insertAll (t.insert x).1 xs := by
        simp [insertAll]
      rw [hstep]
      have hrest := ihl (t.insert x).1 (by simpa [Quadtree.insert] using hwf2)
        (fun y hy => by
          rw [show (t.insert x).1.bounds = t.bounds from by
            simpa [Quadtree.insert] using hb2]
          exact hcont y (by simp [hy]))
      obtain ⟨rwf, rcnt, rb, rm, rd⟩ := hrest
      refine ⟨rwf, ?_, ?_, ?_, ?_⟩
      · rw [rcnt]
        have : (t.insert x).1.contents = x ::ₘ t.contents := by
          simpa [Quadtree.insert] using hcnt
        rw [this]
        have hxx : ((x :: xs : List Entity) : Multiset Entity) =
            x ::ₘ (xs : Multiset Entity) := by simp
        rw [hxx, ← Multiset.singleton_add, ← Multiset.singleton_add]
        abel
      · rw [rb]; simpa [Quadtree.insert] using hb2
      · rw [rm]; simpa [Quadtree.insert] using hm2
      · rw [rd]; simpa [Quadtree.insert] using hd2

/-- Behaviour of the per-level removal loop: a false flag means nothing with
the id is present and the list is unchanged; a true flag means exactly one
entry with the id was dropped and the survivors come from the original. -/
theorem removeById_spec :
    ∀ (l : List Entity) (i : ℕ),
      ((removeById l i).2 = false → (removeById l i).1 = l ∧
        l.countP (fun e => decide (e.id = i)) = 0) ∧
      ((removeById l i).2 = true →
        (removeById l i).1.countP (fun e => decide (e.id = i)) + 1 =
          l.countP (fun e => decide (e.id = i)) ∧
        ∀ e ∈ (removeById l i).1, e ∈ l) := by
  intro l i
  induction l with
  | nil =>
      refine ⟨fun _ => ⟨rfl, by simp⟩, fun h => ?_⟩
      simp [removeById] at h
  | cons x xs ihl =>
      by_cases hx : x.id = i
      · have heq : removeById (x :: xs) i = (xs, true) := by
          simp [removeById, hx]
        rw [heq]
        refine ⟨fun h => by simp at h, fun _ => ⟨?_, fun e he => by simp [he]⟩⟩
        simp [List.countP_cons, hx]
      · have heq : removeById (x :: xs) i =
            (x :: (removeById xs i).1, (removeById xs i).2) := by
          simp [removeById, hx]
        rw [heq]
        constructor
        · intro h
          obtain ⟨h1, h2⟩ := ihl.1 h
          refine ⟨by rw [h1], ?_⟩
          simp [List.countP_cons, hx, h2]
        · intro h
          obtain ⟨h1, h2⟩ := ihl.2 h
          refine ⟨?_, ?_⟩
          · have hd : (decide (x.id = i)) = false := by simp [hx]
            simp only [List.countP_cons, hd]
            omega
          · intro e he
            rcases List.mem_cons.mp he with h3 | h3
            · simp [h3]
            · simp [h2 e h3]

/-- Behaviour of `removeInternal` on a well-formed tree: the exhaustive
search preserves shape metadata and well-formedness; failure means the id is
absent and the tree untouched, success drops exactly one entry with the id. -/
theorem removeInternal_spec :
    ∀ (t : Quadtree) (ent : Entity), t.wf →
      (t.removeInternal ent).1.wf ∧
      (t.removeInternal ent).1.bounds = t.bounds ∧
      (t.removeInternal ent).1.depth = t.depth ∧
      (t.removeInternal ent).1.maxDepth = t.maxDepth ∧
      ((t.removeInternal ent).2 = false → (t.removeInternal ent).1 = t ∧
        t.toList.countP (fun e => decide (e.id = ent.id)) = 0) ∧
      ((t.removeInternal ent).2 = true →
        (t.removeInternal ent).1.toList.countP (fun e => decide (e.id = ent.id)) + 1 =
          t.toList.countP (fun e => decide (e.id = ent.id))) := by
  intro t
  induction t with
  | leaf b c d md ents =>
      intro ent hwf
      simp only [Quadtree.wf] at hwf
      by_cases hr : (removeById ents ent.id).2 = true
      · have heq : Quadtree.removeInternal (Quadtree.leaf b c d md ents) ent =
            (Quadtree.leaf b c d md (removeById ents ent.id).1, true) := by
          simp [Quadtree.removeInternal, hr]
        rw [heq]
        obtain ⟨hcnt, hmem⟩ := (removeById_spec ents ent.id).2 hr
        refine ⟨?_, rfl, rfl, rfl, fun h => by simp at h, fun _ => ?_⟩
        · simp only [Quadtree.wf]
          intro e he
          exact hwf e (hmem e he)
        · simpa [Quadtree.toList] using hcnt
      · have hr2 : (removeById ents ent.id).2 = false := by
          simpa using hr
        have heq : Quadtree.removeInternal (Quadtree.leaf b c d md ents) ent =
            (Quadtree.leaf b c d md ents, false) := by
          simp [Quadtree.removeInternal, hr2]
        rw [heq]
        obtain ⟨hlist, hcnt⟩ := (removeById_spec ents ent.id).1 hr2
        refine ⟨?_, rfl, rfl, rfl, fun _ => ⟨rfl, by simpa [Quadtree.toList] using hcnt⟩,
          fun h => by simp at h⟩
        simp only [Quadtree.wf]
        exact hwf
  | node b c d md ents nw ne sw se ihnw ihne ihsw ihse =>
      intro ent hwf
      simp only [Quadtree.wf] at hwf
      obtain ⟨hents, hbnw, hbne, hbsw, hbse, hdnw, hdne, hdsw, hdse,
        hmnw, hmne, hmsw, hmse, hwnw, hwne, hwsw, hwse⟩ := hwf
      obtain ⟨rnwwf, rnwb, rnwd, rnwm, rnwf, rnwt⟩ := ihnw ent hwnw
      obtain ⟨rnewf, rneb, rned, rnem, rnef, rnet⟩ := ihne ent hwne
      obtain ⟨rswwf, rswb, rswd, rswm, rswf, rswt⟩ := ihsw ent hwsw
      obtain ⟨rsewf, rseb, rsed, rsem, rsef, rset⟩ := ihse ent hwse
      by_cases hr : (removeById ents ent.id).2 = true
      · have heq : Quadtree.removeInternal (Quadtree.node b c d md ents nw ne sw se) ent =
            (Quadtree.node b c d md (removeById ents ent.id).1 nw ne sw se, true) := by
          simp [Quadtree.removeInternal, hr]
        rw [heq]
        obtain ⟨hcnt, hmem⟩ := (removeById_spec ents ent.id).2 hr
        refine ⟨?_, rfl, rfl, rfl, fun h => by simp at h, fun _ => ?_⟩
        · simp only [Quadtree.wf]
          exact ⟨fun e he => hents e (hmem e he), hbnw, hbne, hbsw, hbse,
            hdnw, hdne, hdsw, hdse, hmnw, hmne, hmsw, hmse, hwnw, hwne, hwsw, hwse⟩
        · simp only [Quadtree.toList, List.countP_append]
          omega
      · have hr2 : (removeById ents ent.id).2 = false := by simpa using hr
        obtain ⟨hlist, hcnt0⟩ := (removeById_spec ents ent.id).1 hr2
        by_cases h1 : (nw.removeInternal ent).2 = true
        · have heq : Quadtree.removeInternal (Quadtree.node b c d md ents nw ne sw se) ent =
              (Quadtree.node b c d md ents (nw.removeInternal ent).1 ne sw se, true) := by
            simp [Quadtree.removeInternal, hr2, h1]
          rw [heq]
          refine ⟨?_, rfl, rfl, rfl, fun h => by simp at h, fun _ => ?_⟩
          · simp only [Quadtree.wf]
            exact ⟨hents, rnwb.trans hbnw, hbne, hbsw, hbse, rnwd.trans hdnw, hdne,
              hdsw, hdse, rnwm.trans hmnw, hmne, hmsw, hmse, rnwwf, hwne, hwsw, hwse⟩
          · have := rnwt h1
            simp only [Quadtree.toList, List.countP_append]
            omega
        · have h1f : (nw.removeInternal ent).2 = false := by simpa using h1
          obtain ⟨hnweq, hnwcnt⟩ := rnwf h1f
          by_cases h2 : (ne.removeInternal ent).2 = true
          · have heq : Quadtree.removeInternal
                (Quadtree.node b c d md ents nw ne sw se) ent =
                (Quadtree.node b c d md ents nw (ne.removeInternal ent).1 sw se, true) := by
              simp [Quadtree.removeInternal, hr2, h1f, h2, hnweq]
            rw [heq]
            refine ⟨?_, rfl, rfl, rfl, fun h => by simp at h, fun _ => ?_⟩
            · simp only [Quadtree.wf]
              exact ⟨hents, hbnw, rneb.trans hbne, hbsw, hbse, hdnw, rned.trans hdne,
                hdsw, hdse, hmnw, rnem.trans hmne, hmsw, hmse, hwnw, rnewf, hwsw, hwse⟩
            · have := rnet h2
              simp only [Quadtree.toList, List.countP_append]
              omega
          · have h2f : (ne.removeInternal ent).2 = false := by simpa using h2
            obtain ⟨hneeq, hnecnt⟩ := rnef h2f
            by_cases h3 : (sw.removeInternal ent).2 = true
            · have heq : Quadtree.removeInternal
                  (Quadtree.node b c d md ents nw ne sw se) ent =
                  (Quadtree.node b c d md ents nw ne (sw.removeInternal ent).1 se,
                   true) := by
                simp [Quadtree.removeInternal, hr2, h1f, h2f, h3, hnweq, hneeq]
              rw [heq]
              refine ⟨?_, rfl, rfl, rfl, fun h => by simp at h, fun _ => ?_⟩
              · simp only [Quadtree.wf]
                exact ⟨hents, hbnw, hbne, rswb.trans hbsw, hbse, hdnw, hdne,
                  rswd.trans hdsw, hdse, hmnw, hmne, rswm.trans hmsw, hmse,
                  hwnw, hwne, rswwf, hwse⟩
              · have := rswt h3
                simp only [Quadtree.toList, List.countP_append]
                omega
            · have h3f : (sw.removeInternal ent).2 = false := by simpa using h3
              obtain ⟨hsweq, hswcnt⟩ := rswf h3f
              have heq : Quadtree.removeInternal
                  (Quadtree.node b c d md ents nw ne sw se) ent =
                  (Quadtree.node b c d md ents nw ne sw (se.removeInternal ent).1,
                   (se.removeInternal ent).2) := by
                simp [Quadtree.removeInternal, hr2, h1f, h2f, h3f, hnweq, hneeq, hsweq]
              rw [heq]
              refine ⟨?_, rfl, rfl, rfl, ?_, ?_⟩
              · simp only [Quadtree.wf]
                exact ⟨hents, hbnw, hbne, hbsw, rseb.trans hbse, hdnw, hdne, hdsw,
                  rsed.trans hdse, hmnw, hmne, hmsw, rsem.trans hmse,
                  hwnw, hwne, hwsw, rsewf⟩
              · intro h4
                obtain ⟨hseeq, hsecnt⟩ := rsef h4
                refine ⟨by rw [hseeq], ?_⟩
                simp only [Quadtree.toList, List.countP_append]
                omega
              · intro h4
                have := rset h4
                simp only [Quadtree.toList, List.countP_append]
                omega

/-- `Update` on an entity whose current position the root rectangle does not
contain: the removal succeeds at most once by id, the re-insertion fails at
the root, and the entity is gone from the index. -/
theorem update_outside (t : Quadtree) (e : Entity) (oldPos : Vector2) (hwf : t.wf)
    (hcount : t.toList.countP (fun x => decide (x.id = e.id)) ≤ 1)
    (hnc : ¬ t.bounds.Contains e.position) :
    (t.update e oldPos).1.toList.countP (fun x => decide (x.id = e.id)) = 0 ∧
    (t.update e oldPos).1.wf ∧
    (t.update e oldPos).1.bounds = t.bounds := by
  obtain ⟨rwf, rb, rd, rm, rf, rt⟩ := removeInternal_spec t e hwf
  have hnc2 : ¬ (t.removeInternal e).1.bounds.Contains e.position := by
    rw [rb]; exact hnc
  have hins : Quadtree.insertAux ((t.removeInternal e).1.maxDepth + 1)
      (t.removeInternal e).1 e = ((t.removeInternal e).1, false) :=
    (insert_spec_all ((t.removeInternal e).1.maxDepth + 1) (t.removeInternal e).1 e rwf
      (by omega)).1 hnc2
  have hupd : (t.update e oldPos).1 = (t.removeInternal e).1 := by
    simp only [Quadtree.update, Quadtree.remove, Quadtree.insert]
    rw [hins]
  rw [hupd]
  refine ⟨?_, rwf, rb⟩
  by_cases hflag : (t.removeInternal e).2 = true
  · have := rt hflag
    omega
  · have hflag2 : (t.removeInternal e).2 = false := by simpa using hflag
    obtain ⟨heq2, hcnt0⟩ := rf hflag2
    rw [heq2]
    exact hcnt0

/-! ## Tick-pipeline lemmas (SpatialEngine) -/

/-- The clamped coordinate of the integration step lies in the closed bounds. -/
theorem clamp_in_bounds {lo hi v : ℚ} (h : lo ≤ hi) :
    lo ≤ max lo (min hi v) ∧ max lo (min hi v) ≤ hi :=
  ⟨le_max_left lo (min hi v), max_le h (min_le_left hi v)⟩

/-- Every entity emitted by `updateEntityPositions` satisfies the closed
world-bounds check: committed positions passed the check, clamped positions
are forced into the bounds. -/
theorem updateEntityPositions_inBounds (cfg : EngineConfig)
    (hx : cfg.worldBounds.minX ≤ cfg.worldBounds.maxX)
    (hy : cfg.worldBounds.minY ≤ cfg.worldBounds.maxY) :
    ∀ (es : List Entity) (acc : Quadtree × List Entity × List QueuedMessage),
      (∀ e ∈ acc.2.1, isPositionValid cfg e.position.x e.position.y) →
      ∀ e2 ∈ (es.foldl (updateOne cfg) acc).2.1,
        isPositionValid cfg e2.position.x e2.position.y := by
  intro es
  induction es with
  | nil =>
      intro acc hacc e2 he2
      exact hacc e2 he2
  | cons e es ihl =>
      intro acc hacc e2 he2
      simp only [List.foldl_cons] at he2
      refine ihl (updateOne cfg acc e) ?_ e2 he2
      intro e3 he3
      by_cases hval : isPositionValid cfg (e.position.x + e.velocity.x)
        (e.position.y + e.velocity.y)
      · simp only [updateOne] at he3
        rw [if_pos hval] at he3
        simp only [List.mem_append, List.mem_singleton] at he3
        rcases he3 with h | h
        · exact hacc e3 h
        · subst h
          exact hval
      · simp only [updateOne] at he3
        rw [if_neg hval] at he3
        simp only [List.mem_append, List.mem_singleton] at he3
        rcases he3 with h | h
        · exact hacc e3 h
        · subst h
          exact ⟨(clamp_in_bounds hx).1, (clamp_in_bounds hx).2,
            (clamp_in_bounds hy).1, (clamp_in_bounds hy).2⟩

/-- `SpawnEntity` installs an entity only when the requested coordinates pass
the closed bounds check. -/
theorem spawnEntity_valid (cfg : EngineConfig) (entities : List Entity) (nextID : ℕ)
    (t : Quadtree) (entityType : String) (x y : ℚ) (clientID : String)
    (h : (spawnEntity cfg entities nextID t entityType x y clientID).2.2.2 ≠ 0) :
    isPositionValid cfg x y := by
  by_cases hval : isPositionValid cfg x y
  · exact hval
  · exfalso
    apply h
    simp [spawnEntity, hval]

/-- Integration step on an entity whose provisional position is in bounds:
the position advances by the pre-friction velocity, the velocity is scaled by
0.95, and no correction is queued for it. -/
theorem updateOne_valid (cfg : EngineConfig)
    (acc : Quadtree × List Entity × List QueuedMessage) (e : Entity)
    (h : isPositionValid cfg (e.position.x + e.velocity.x) (e.position.y + e.velocity.y)) :
    (updateOne cfg acc e).2.1 = acc.2.1 ++
      [{ e with position := ⟨e.position.x + e.velocity.x, e.position.y + e.velocity.y⟩,
                velocity := ⟨e.velocity.x * 0.95, e.velocity.y * 0.95⟩ }] ∧
    (updateOne cfg acc e).2.2 = acc.2.2 := by
  constructor <;> (simp only [updateOne]; rw [if_pos h])

/-- Integration step on an entity whose provisional position is out of
bounds: the position is clamped, the velocity zeroed, and exactly one
correction addressed to the owning client is queued. -/
theorem updateOne_clamped (cfg : EngineConfig)
    (acc : Quadtree × List Entity × List QueuedMessage) (e : Entity)
    (h : ¬ isPositionValid cfg (e.position.x + e.velocity.x) (e.position.y + e.velocity.y)) :
    (updateOne cfg acc e).1 = acc.1 ∧
    ∃ e2 : Entity,
      (updateOne cfg acc e).2.1 = acc.2.1 ++ [e2] ∧
      (updateOne cfg acc e).2.2 = acc.2.2 ++ [generateCorrection e2] ∧
      e2.clientID = e.clientID ∧ e2.id = e.id ∧ e2.velocity = ⟨0, 0⟩ ∧
      e2.position = ⟨max cfg.worldBounds.minX (min cfg.worldBounds.maxX
          (e.position.x + e.velocity.x)),
        max cfg.worldBounds.minY (min cfg.worldBounds.maxY
          (e.position.y + e.velocity.y))⟩ := by
  refine ⟨by simp only [updateOne]; rw [if_neg h], ?_⟩
  refine ⟨{ e with
    position := ⟨max cfg.worldBounds.minX (min cfg.worldBounds.maxX
        (e.position.x + e.velocity.x)),
      max cfg.worldBounds.minY (min cfg.worldBounds.maxY
        (e.position.y + e.velocity.y))⟩,
    velocity := ⟨0, 0⟩ }, ?_, ?_, rfl, rfl, rfl, rfl⟩ <;>
    (simp only [updateOne]; rw [if_neg h])

/-- Complete behaviour of the per-entity delta loop of
`processMovementDeltas`: the position is never touched, `lastSequence` is
non-decreasing and ends at the maximum accepted sequence, and exactly one
correction per bounds-rejected delta is queued to the owning client. -/
theorem processDeltas_fold_spec (cfg : EngineConfig) :
    ∀ (ds : List MovementDelta) (e : Entity) (msgs0 : List QueuedMessage),
      (((ds.foldl (processDeltaStep cfg) (e, msgs0)).1.position = e.position) ∧
       ((ds.foldl (processDeltaStep cfg) (e, msgs0)).1.id = e.id) ∧
       ((ds.foldl (processDeltaStep cfg) (e, msgs0)).1.clientID = e.clientID)) ∧
      (e.lastSequence ≤ (ds.foldl (processDeltaStep cfg) (e, msgs0)).1.lastSequence) ∧
      (acceptedSeqs cfg e ds = [] →
        (ds.foldl (processDeltaStep cfg) (e, msgs0)).1.lastSequence = e.lastSequence) ∧
      (∀ s ∈ acceptedSeqs cfg e ds,
        s ≤ (ds.foldl (processDeltaStep cfg) (e, msgs0)).1.lastSequence) ∧
      (acceptedSeqs cfg e ds ≠ [] →
        (ds.foldl (processDeltaStep cfg) (e, msgs0)).1.lastSequence ∈
          acceptedSeqs cfg e ds) ∧
      ((ds.foldl (processDeltaStep cfg) (e, msgs0)).2.length =
        msgs0.length + (boundsRejectedSeqs cfg e ds).length) ∧
      (∀ m ∈ (ds.foldl (processDeltaStep cfg) (e, msgs0)).2,
        m ∈ msgs0 ∨ (m.1 = e.clientID ∧ ∃ cr : Correction, m.2 = .correction cr)) := by
  intro ds
  induction ds with
  | nil =>
      intro e msgs0
      refine ⟨⟨rfl, rfl, rfl⟩, le_refl _, fun _ => rfl, ?_, ?_, by simp [boundsRejectedSeqs], ?_⟩
      · intro s hs
        simp [acceptedSeqs] at hs
      · intro h
        simp [acceptedSeqs] at h
      · intro m hm
        exact Or.inl hm
  | cons d ds ihl =>
      intro e msgs0
      by_cases hseq : e.lastSequence < d.sequence
      · by_cases hval : isPositionValid cfg (e.position.x + d.deltaX)
          (e.position.y + d.deltaY)
        · -- accepted
          have hstep : processDeltaStep cfg (e, msgs0) d =
              ({ e with velocity := ⟨d.deltaX, d.deltaY⟩, lastSequence := d.sequence },
               msgs0) := by
            simp only [processDeltaStep]
            rw [if_pos hseq, if_pos hval]
          have hacc : acceptedSeqs cfg e (d :: ds) = d.sequence ::
              acceptedSeqs cfg
                { e with velocity := ⟨d.deltaX, d.deltaY⟩, lastSequence := d.sequence } ds := by
            simp only [acceptedSeqs]
            rw [if_pos hseq, if_pos hval]
          have hrej : boundsRejectedSeqs cfg e (d :: ds) = boundsRejectedSeqs cfg
              { e with velocity := ⟨d.deltaX, d.deltaY⟩, lastSequence := d.sequence } ds := by
            simp only [boundsRejectedSeqs]
            rw [if_pos hseq, if_pos hval]
          simp only [List.foldl_cons, hstep, hacc, hrej]
          obtain ⟨⟨hp, hid, hcl⟩, hmono, hempty, hall, hmem, hlen, hmsg⟩ :=
            ihl { e with velocity := ⟨d.deltaX, d.deltaY⟩, lastSequence := d.sequence } msgs0
          refine ⟨⟨hp, hid, hcl⟩, ?_, ?_, ?_, ?_, hlen, hmsg⟩
          · calc e.lastSequence ≤ d.sequence := le_of_lt hseq
              _ ≤ _ := hmono
          · intro h
            simp at h
          · intro s hs
            rcases List.mem_cons.mp hs with h | h
            · subst h
              exact hmono
            · exact hall s h
          · intro _
            by_cases htail : acceptedSeqs cfg { e with velocity := ⟨d.deltaX, d.deltaY⟩, lastSequence := d.sequence } ds = []
            · rw [hempty htail]
              simp
            · exact List.mem_cons_of_mem _ (hmem htail)
        · -- bounds-rejected
          have hstep : processDeltaStep cfg (e, msgs0) d =
              (e, msgs0 ++ [generateCorrection e]) := by
            simp only [processDeltaStep]
            rw [if_pos hseq, if_neg hval]
          have hacc : acceptedSeqs cfg e (d :: ds) = acceptedSeqs cfg e ds := by
            simp only [acceptedSeqs]
            rw [if_pos hseq, if_neg hval]
          have hrej : boundsRejectedSeqs cfg e (d :: ds) =
              d.sequence :: boundsRejectedSeqs cfg e ds := by
            simp only [boundsRejectedSeqs]
            rw [if_pos hseq, if_neg hval]
          simp only [List.foldl_cons, hstep, hacc, hrej]
          obtain ⟨⟨hp, hid, hcl⟩, hmono, hempty, hall, hmem, hlen, hmsg⟩ :=
            ihl e (msgs0 ++ [generateCorrection e])
          refine ⟨⟨hp, hid, hcl⟩, hmono, hempty, hall, hmem, ?_, ?_⟩
          · rw [hlen]
            simp
            omega
          · intro m hm
            rcases hmsg m hm with h | h
            · rcases List.mem_append.mp h with h2 | h2
              · exact Or.inl h2
              · refine Or.inr ?_
                rw [List.mem_singleton.mp h2]
                exact ⟨rfl, ⟨_, rfl⟩⟩
            · exact Or.inr h
      · -- stale sequence: skipped
        have hstep : processDeltaStep cfg (e, msgs0) d = (e, msgs0) := by
          simp only [processDeltaStep]
          rw [if_neg hseq]
        have hacc : acceptedSeqs cfg e (d :: ds) = acceptedSeqs cfg e ds := by
          simp only [acceptedSeqs]
          rw [if_neg hseq]
        have hrej : boundsRejectedSeqs cfg e (d :: ds) = boundsRejectedSeqs cfg e ds := by
          simp only [boundsRejectedSeqs]
          rw [if_neg hseq]
        simp only [List.foldl_cons, hstep, hacc, hrej]
        exact ihl e msgs0

/-! ## MovementValidator lemmas (authority.go) -/

/-- With a non-negative configured speed bound the teleport branch of
`Validate` can never be taken: any delta long enough to trip the teleport
threshold (three times the bound) already tripped the speed check, which
returns first. -/
theorem teleport_unreachable (m : ℝ) (wb : RBounds) (ent : REntity) (delta : RDelta)
    (hm : 0 ≤ m) : (mvValidate m wb ent delta).reason ≠ "teleportation detected" := by
  simp only [mvValidate]
  by_cases h1 : delta.sequence ≤ ent.lastSequence
  · rw [if_pos h1]
    simp
  · rw [if_neg h1]
    by_cases h2 : m < Real.sqrt (delta.deltaX * delta.deltaX + delta.deltaY * delta.deltaY)
    · rw [if_pos h2]
      simp
    · rw [if_neg h2]
      have h3 : ¬ isTeleportation m delta := by
        simp only [isTeleportation, not_lt, gt_iff_lt] at h2 ⊢
        nlinarith [h2]
      rw [if_neg h3]
      by_cases h4 : ¬ isInBoundsR wb (ent.position.x + delta.deltaX)
          (ent.position.y + delta.deltaY)
      · rw [if_pos h4]
        simp
      · rw [if_neg h4]
        simp

/-- An over-speed delta (fresh sequence) takes the early speed-check return:
invalid, reason "exceeds max speed", modified, carrying the scaled delta. -/
theorem mvValidate_overspeed (m : ℝ) (wb : RBounds) (ent : REntity) (delta : RDelta)
    (hseq : ent.lastSequence < delta.sequence)
    (hd : m < Real.sqrt (delta.deltaX * delta.deltaX + delta.deltaY * delta.deltaY)) :
    mvValidate m wb ent delta =
      ⟨false, "exceeds max speed", true, some (limitSpeed delta m)⟩ := by
  simp only [mvValidate]
  rw [if_neg (by omega), if_pos hd]

/-- `limitSpeed` on a delta longer than the positive bound scales both
components by `m / distance`, and the scaled delta has magnitude exactly `m`. -/
theorem limitSpeed_spec (delta : RDelta) (m : ℝ) (hm : 0 < m)
    (hd : m < Real.sqrt (delta.deltaX * delta.deltaX + delta.deltaY * delta.deltaY)) :
    (limitSpeed delta m).deltaX = delta.deltaX *
      (m / Real.sqrt (delta.deltaX * delta.deltaX + delta.deltaY * delta.deltaY)) ∧
    (limitSpeed delta m).deltaY = delta.deltaY *
      (m / Real.sqrt (delta.deltaX * delta.deltaX + delta.deltaY * delta.deltaY)) ∧
    Real.sqrt ((limitSpeed delta m).deltaX * (limitSpeed delta m).deltaX +
      (limitSpeed delta m).deltaY * (limitSpeed delta m).deltaY) = m := by
  have hs : (0:ℝ) ≤ delta.deltaX * delta.deltaX + delta.deltaY * delta.deltaY := by
    nlinarith [mul_self_nonneg delta.deltaX, mul_self_nonneg delta.deltaY]
  have hsq := Real.mul_self_sqrt hs
  have hd0 : (0:ℝ) < Real.sqrt (delta.deltaX * delta.deltaX + delta.deltaY * delta.deltaY) :=
    lt_trans hm hd
  have heq : limitSpeed delta m = { delta with
      deltaX := delta.deltaX *
        (m / Real.sqrt (delta.deltaX * delta.deltaX + delta.deltaY * delta.deltaY)),
      deltaY := delta.deltaY *
        (m / Real.sqrt (delta.deltaX * delta.deltaX + delta.deltaY * delta.deltaY)) } := by
    simp only [limitSpeed]
    rw [if_neg (not_le.mpr hd)]
  rw [heq]
  refine ⟨rfl, rfl, ?_⟩
  have hne : Real.sqrt (delta.deltaX * delta.deltaX + delta.deltaY * delta.deltaY) ≠ 0 :=
    ne_of_gt hd0
  have hexpr : delta.deltaX *
        (m / Real.sqrt (delta.deltaX * delta.deltaX + delta.deltaY * delta.deltaY)) *
      (delta.deltaX *
        (m / Real.sqrt (delta.deltaX * delta.deltaX + delta.deltaY * delta.deltaY))) +
      delta.deltaY *
        (m / Real.sqrt (delta.deltaX * delta.deltaX + delta.deltaY * delta.deltaY)) *
      (delta.deltaY *
        (m / Real.sqrt (delta.deltaX * delta.deltaX + delta.deltaY * delta.deltaY))) =
      m * m := by
    have hspos : (0:ℝ) < delta.deltaX * delta.deltaX + delta.deltaY * delta.deltaY := by
      nlinarith [hsq, hd0]
    field_simp
    ring
  rw [hexpr]
  exact Real.sqrt_mul_self (le_of_lt hm)

end Aether

namespace AetherSync

/-! ## Submultiset bounds for the aethersync quadtree -/

theorem tryChildren_eq_first (ins : Qtree → GEntity → Qtree × Bool)
    (q : Qtree × Qtree × Qtree × Qtree) (e : GEntity)
    (h : (ins q.1 e).2 = true) :
    tryChildren ins q e = (((ins q.1 e).1, q.2.1, q.2.2.1, q.2.2.2), true) := by
  simp [tryChildren, h]

theorem tryChildren_eq_second (ins : Qtree → GEntity → Qtree × Bool)
    (q : Qtree × Qtree × Qtree × Qtree) (e : GEntity)
    (h1 : (ins q.1 e).2 = false) (h2 : (ins q.2.1 e).2 = true) :
    tryChildren ins q e = ((q.1, (ins q.2.1 e).1, q.2.2.1, q.2.2.2), true) := by
  simp [tryChildren, h1, h2]

theorem tryChildren_eq_third (ins : Qtree → GEntity → Qtree × Bool)
    (q : Qtree × Qtree × Qtree × Qtree) (e : GEntity)
    (h1 : (ins q.1 e).2 = false) (h2 : (ins q.2.1 e).2 = false)
    (h3 : (ins q.2.2.1 e).2 = true) :
    tryChildren ins q e = ((q.1, q.2.1, (ins q.2.2.1 e).1, q.2.2.2), true) := by
  simp [tryChildren, h1, h2, h3]

theorem tryChildren_eq_fourth (ins : Qtree → GEntity → Qtree × Bool)
    (q : Qtree × Qtree × Qtree × Qtree) (e : GEntity)
    (h1 : (ins q.1 e).2 = false) (h2 : (ins q.2.1 e).2 = false)
    (h3 : (ins q.2.2.1 e).2 = false) :
    tryChildren ins q e = ((q.1, q.2.1, q.2.2.1, (ins q.2.2.2 e).1), (ins q.2.2.2 e).2) := by
  simp [tryChildren, h1, h2, h3]

/-- A failed aethersync insertion leaves the tree unchanged. -/
theorem insertAux2_false :
    ∀ (fuel : ℕ) (t : Qtree) (e : GEntity),
      (Qtree.insertAux fuel t e).2 = false → (Qtree.insertAux fuel t e).1 = t := by
  intro fuel t e
  match fuel, t with
  | 0, Qtree.leaf b c ents =>
      intro h
      by_cases hc : b.ContainsPoint e.position
      · by_cases hl : ents.length < c
        · exfalso
          simp [Qtree.insertAux, Qtree.boundary, hc, hl] at h
        · simp [Qtree.insertAux, Qtree.boundary, hc, hl]
      · simp [Qtree.insertAux, Qtree.boundary, hc]
  | 0, Qtree.node b c ents nw ne sw se =>
      intro h
      by_cases hc : b.ContainsPoint e.position
      · by_cases hl : ents.length < c
        · exfalso
          simp [Qtree.insertAux, Qtree.boundary, hc, hl] at h
        · simp [Qtree.insertAux, Qtree.boundary, hc, hl]
      · simp [Qtree.insertAux, Qtree.boundary, hc]
  | fuel' + 1, Qtree.leaf b c ents =>
      intro h
      by_cases hc : b.ContainsPoint e.position
      · exfalso
        by_cases hl : ents.length < c
        · simp [Qtree.insertAux, Qtree.boundary, hc, hl] at h
        · simp only [Qtree.insertAux, Qtree.boundary] at h
          rw [if_neg (not_not_intro hc), if_neg hl] at h
          split at h <;> simp at h
      · simp [Qtree.insertAux, Qtree.boundary, hc]
  | fuel' + 1, Qtree.node b c ents nw ne sw se =>
      intro h
      by_cases hc : b.ContainsPoint e.position
      · exfalso
        by_cases hl : ents.length < c
        · simp [Qtree.insertAux, Qtree.boundary, hc, hl] at h
        · simp only [Qtree.insertAux, Qtree.boundary] at h
          rw [if_neg (not_not_intro hc), if_neg hl] at h
          split at h <;> simp at h
      · simp [Qtree.insertAux, Qtree.boundary, hc]

/-- Child-tuple bound for the sequential insertion attempts: together the
four children gain at most the one new entity, and on failure the tuple is
unchanged. -/
theorem tryChildren_sub (fuel' : ℕ)
    (IH : ∀ (t : Qtree) (e : GEntity),
      ((Qtree.insertAux fuel' t e).1.toList : Multiset GEntity) ≤
        (t.toList : Multiset GEntity) + (e ::ₘ 0))
    (q : Qtree × Qtree × Qtree × Qtree) (e : GEntity) :
    (((tryChildren (Qtree.insertAux fuel') q e).1.1.toList : Multiset GEntity) +
      ((tryChildren (Qtree.insertAux fuel') q e).1.2.1.toList : Multiset GEntity) +
      ((tryChildren (Qtree.insertAux fuel') q e).1.2.2.1.toList : Multiset GEntity) +
      ((tryChildren (Qtree.insertAux fuel') q e).1.2.2.2.toList : Multiset GEntity)) ≤
      ((q.1.toList : Multiset GEntity) + (q.2.1.toList : Multiset GEntity) +
       (q.2.2.1.toList : Multiset GEntity) + (q.2.2.2.toList : Multiset GEntity)) +
        (e ::ₘ 0) ∧
    ((tryChildren (Qtree.insertAux fuel') q e).2 = false →
      (tryChildren (Qtree.insertAux fuel') q e).1 = q) := by
  obtain ⟨a, b2, c2, d2⟩ := q
  by_cases h1 : (Qtree.insertAux fuel' a e).2 = true
  · rw [tryChildren_eq_first _ _ _ h1]
    refine ⟨?_, fun h => by simp at h⟩
    have := IH a e
    calc ((Qtree.insertAux fuel' a e).1.toList : Multiset GEntity) + ↑b2.toList +
        ↑c2.toList + ↑d2.toList
        ≤ (↑a.toList + (e ::ₘ 0)) + ↑b2.toList + ↑c2.toList + ↑d2.toList := by
          gcongr <;> exact this
      _ = (↑a.toList + ↑b2.toList + ↑c2.toList + ↑d2.toList) + (e ::ₘ 0) := by abel
  · have h1f : (Qtree.insertAux fuel' a e).2 = false := by simpa using h1
    by_cases h2 : (Qtree.insertAux fuel' b2 e).2 = true
    · rw [tryChildren_eq_second _ _ _ h1f h2]
      refine ⟨?_, fun h => by simp at h⟩
      have := IH b2 e
      calc (↑a.toList : Multiset GEntity) + ↑(Qtree.insertAux fuel' b2 e).1.toList +
          ↑c2.toList + ↑d2.toList
          ≤ ↑a.toList + (↑b2.toList + (e ::ₘ 0)) + ↑c2.toList + ↑d2.toList := by
            gcongr <;> exact this
        _ = (↑a.toList + ↑b2.toList + ↑c2.toList + ↑d2.toList) + (e ::ₘ 0) := by abel
    · have h2f : (Qtree.insertAux fuel' b2 e).2 = false := by simpa using h2
      by_cases h3 : (Qtree.insertAux fuel' c2 e).2 = true
      · rw [tryChildren_eq_third _ _ _ h1f h2f h3]
        refine ⟨?_, fun h => by simp at h⟩
        have := IH c2 e
        calc (↑a.toList : Multiset GEntity) + ↑b2.toList +
            ↑(Qtree.insertAux fuel' c2 e).1.toList + ↑d2.toList
            ≤ ↑a.toList + ↑b2.toList + (↑c2.toList + (e ::ₘ 0)) + ↑d2.toList := by
              gcongr <;> exact this
          _ = (↑a.toList + ↑b2.toList + ↑c2.toList + ↑d2.toList) + (e ::ₘ 0) := by abel
      · have h3f : (Qtree.insertAux fuel' c2 e).2 = false := by simpa using h3
        rw [tryChildren_eq_fourth _ _ _ h1f h2f h3f]
        constructor
        · have := IH d2 e
          calc (↑a.toList : Multiset GEntity) + ↑b2.toList + ↑c2.toList +
              ↑(Qtree.insertAux fuel' d2 e).1.toList
              ≤ ↑a.toList + ↑b2.toList + ↑c2.toList + (↑d2.toList + (e ::ₘ 0)) := by
                gcongr <;> exact this
            _ = (↑a.toList + ↑b2.toList + ↑c2.toList + ↑d2.toList) + (e ::ₘ 0) := by abel
        · intro h4
          have : (Qtree.insertAux fuel' d2 e).1 = d2 := insertAux2_false fuel' d2 e h4
          simp [this]

theorem coe_snoc {α : Type} (l : List α) (e : α) :
    ((l ++ [e] : List α) : Multiset α) = (l : Multiset α) + (e ::ₘ 0) := by
  rw [show ((l : List α) : Multiset α) + (e ::ₘ 0) = ((e :: l : List α) : Multiset α) from by
    rw [show (e ::ₘ (0 : Multiset α)) = {e} from rfl, add_comm, Multiset.singleton_add,
      Multiset.cons_coe]]
  exact Multiset.coe_eq_coe.mpr (List.perm_append_singleton e l)

theorem coe_snoc_append4 {α : Type} (l A B C D : List α) (e : α) :
    (((l ++ [e]) ++ A ++ B ++ C ++ D : List α) : Multiset α) =
      ((l ++ A ++ B ++ C ++ D : List α) : Multiset α) + (e ::ₘ 0) := by
  rw [show ((l ++ A ++ B ++ C ++ D : List α) : Multiset α) + (e ::ₘ 0) =
      ((e :: (l ++ A ++ B ++ C ++ D) : List α) : Multiset α) from by
    rw [show (e ::ₘ (0 : Multiset α)) = {e} from rfl, add_comm, Multiset.singleton_add,
      Multiset.cons_coe]]
  refine Multiset.coe_eq_coe.mpr ?_
  simp only [List.append_assoc, List.cons_append, List.singleton_append]
  exact List.perm_middle

/-- An aethersync insertion adds at most the inserted entity to the stored
multiset. -/
theorem insertAux2_sub :
    ∀ (fuel : ℕ) (t : Qtree) (e : GEntity),
      ((Qtree.insertAux fuel t e).1.toList : Multiset GEntity) ≤
        (t.toList : Multiset GEntity) + (e ::ₘ 0) := by
  intro fuel
  induction fuel with
  | zero =>
      intro t e
      by_cases hf : (Qtree.insertAux 0 t e).2 = false
      · rw [insertAux2_false 0 t e hf]
        exact Multiset.le_add_right _ _
      · have hf2 : (Qtree.insertAux 0 t e).2 = true := by simpa using hf
        match t with
        | Qtree.leaf b c ents =>
            by_cases hc : b.ContainsPoint e.position
            · by_cases hl : ents.length < c
              · have heq : (Qtree.insertAux 0 (Qtree.leaf b c ents) e).1 =
                    Qtree.leaf b c (ents ++ [e]) := by
                  simp [Qtree.insertAux, Qtree.boundary, hc, hl]
                rw [heq]
                exact le_of_eq (by simp only [Qtree.toList]; exact coe_snoc ents e)
              · exfalso
                simp [Qtree.insertAux, Qtree.boundary, hc, hl] at hf2
            · exfalso
              simp [Qtree.insertAux, Qtree.boundary, hc] at hf2
        | Qtree.node b c ents nw ne sw se =>
            by_cases hc : b.ContainsPoint e.position
            · by_cases hl : ents.length < c
              · have heq : (Qtree.insertAux 0 (Qtree.node b c ents nw ne sw se) e).1 =
                    Qtree.node b c (ents ++ [e]) nw ne sw se := by
                  simp [Qtree.insertAux, Qtree.boundary, hc, hl]
                rw [heq]
                refine le_of_eq ?_
                simp only [Qtree.toList]
                exact coe_snoc_append4 ents _ _ _ _ e
              · exfalso
                simp [Qtree.insertAux, Qtree.boundary, hc, hl] at hf2
            · exfalso
              simp [Qtree.insertAux, Qtree.boundary, hc] at hf2
  | succ fuel' ih =>
      intro t e
      match t with
      | Qtree.leaf b c ents =>
          by_cases hc : b.ContainsPoint e.position
          · by_cases hl : ents.length < c
            · have heq : (Qtree.insertAux (fuel' + 1) (Qtree.leaf b c ents) e).1 =
                  Qtree.leaf b c (ents ++ [e]) := by
                simp [Qtree.insertAux, Qtree.boundary, hc, hl]
              rw [heq]
              exact le_of_eq (by simp only [Qtree.toList]; exact coe_snoc ents e)
            · have hq := tryChildren_sub fuel' ih
                (Qtree.leaf (subdivided b).1 c [], Qtree.leaf (subdivided b).2.1 c [],
                 Qtree.leaf (subdivided b).2.2.1 c [], Qtree.leaf (subdivided b).2.2.2 c []) e
              set R := tryChildren (Qtree.insertAux fuel')
                (Qtree.leaf (subdivided b).1 c [], Qtree.leaf (subdivided b).2.1 c [],
                 Qtree.leaf (subdivided b).2.2.1 c [], Qtree.leaf (subdivided b).2.2.2 c []) e
                with hR
              by_cases hres : R.2 = true
              · have heq : (Qtree.insertAux (fuel' + 1) (Qtree.leaf b c ents) e).1 =
                    Qtree.node b c ents R.1.1 R.1.2.1 R.1.2.2.1 R.1.2.2.2 := by
                  simp only [Qtree.insertAux, Qtree.boundary]
                  rw [if_neg (not_not_intro hc), if_neg hl, ← hR, if_pos hres]
                rw [heq]
                have hsum : ((R.1.1.toList : Multiset GEntity) + ↑R.1.2.1.toList +
                    ↑R.1.2.2.1.toList + ↑R.1.2.2.2.toList) ≤
                    ((0 + 0 + 0 + 0 : Multiset GEntity) + (e ::ₘ 0)) := by
                  have h0 := hq.1
                  simpa only [Qtree.toList, Multiset.coe_nil] using h0
                simp only [Qtree.toList]
                calc ((ents ++ R.1.1.toList ++ R.1.2.1.toList ++ R.1.2.2.1.toList ++
                      R.1.2.2.2.toList : List GEntity) : Multiset GEntity)
                    = ↑ents + ((R.1.1.toList : Multiset GEntity) + ↑R.1.2.1.toList +
                      ↑R.1.2.2.1.toList + ↑R.1.2.2.2.toList) := by
                      rw [Multiset.coe_add, Multiset.coe_add, Multiset.coe_add,
                        Multiset.coe_add]
                      simp [List.append_assoc]
                  _ ≤ ↑ents + ((0 + 0 + 0 + 0 : Multiset GEntity) + (e ::ₘ 0)) :=
                      add_le_add_left hsum _
                  _ = ↑ents + (e ::ₘ 0) := by simp
              · have hresf : R.2 = false := by simpa using hres
                have hunch := hq.2 hresf
                have heq : (Qtree.insertAux (fuel' + 1) (Qtree.leaf b c ents) e).1 =
                    Qtree.node b c (ents ++ [e]) R.1.1 R.1.2.1 R.1.2.2.1 R.1.2.2.2 := by
                  simp only [Qtree.insertAux, Qtree.boundary]
                  rw [if_neg (not_not_intro hc), if_neg hl, ← hR, if_neg hres]
                rw [heq, hunch]
                refine le_of_eq ?_
                simp only [Qtree.toList, List.append_nil]
                exact coe_snoc ents e
          · have heq : Qtree.insertAux (fuel' + 1) (Qtree.leaf b c ents) e =
                (Qtree.leaf b c ents, false) := by
              simp [Qtree.insertAux, Qtree.boundary, hc]
            rw [heq]
            exact Multiset.le_add_right _ _
      | Qtree.node b c ents nw ne sw se =>
          by_cases hc : b.ContainsPoint e.position
          · by_cases hl : ents.length < c
            · have heq : (Qtree.insertAux (fuel' + 1) (Qtree.node b c ents nw ne sw se) e).1 =
                  Qtree.node b c (ents ++ [e]) nw ne sw se := by
                simp [Qtree.insertAux, Qtree.boundary, hc, hl]
              rw [heq]
              refine le_of_eq ?_
              simp only [Qtree.toList]
              exact coe_snoc_append4 ents _ _ _ _ e
            · have hq := tryChildren_sub fuel' ih (nw, ne, sw, se) e
              set R := tryChildren (Qtree.insertAux fuel') (nw, ne, sw, se) e with hR
              by_cases hres : R.2 = true
              · have heq : (Qtree.insertAux (fuel' + 1)
                    (Qtree.node b c ents nw ne sw se) e).1 =
                    Qtree.node b c ents R.1.1 R.1.2.1 R.1.2.2.1 R.1.2.2.2 := by
                  simp only [Qtree.insertAux, Qtree.boundary]
                  rw [if_neg (not_not_intro hc), if_neg hl, ← hR, if_pos hres]
                rw [heq]
                have hsum : ((R.1.1.toList : Multiset GEntity) + ↑R.1.2.1.toList +
                    ↑R.1.2.2.1.toList + ↑R.1.2.2.2.toList) ≤
                    ((nw.toList : Multiset GEntity) + ↑ne.toList + ↑sw.toList +
                      ↑se.toList) + (e ::ₘ 0) := hq.1
                have hco : ((ents : Multiset GEntity) + ((nw.toList : Multiset GEntity) +
                    ↑ne.toList + ↑sw.toList + ↑se.toList)) =
                    ((ents ++ nw.toList ++ ne.toList ++ sw.toList ++ se.toList :
                      List GEntity) : Multiset GEntity) := by
                  rw [Multiset.coe_add, Multiset.coe_add, Multiset.coe_add,
                    Multiset.coe_add]
                  simp [List.append_assoc]
                simp only [Qtree.toList]
                calc ((ents ++ R.1.1.toList ++ R.1.2.1.toList ++ R.1.2.2.1.toList ++
                      R.1.2.2.2.toList : List GEntity) : Multiset GEntity)
                    = ↑ents + ((R.1.1.toList : Multiset GEntity) + ↑R.1.2.1.toList +
                      ↑R.1.2.2.1.toList + ↑R.1.2.2.2.toList) := by
                      rw [Multiset.coe_add, Multiset.coe_add, Multiset.coe_add,
                        Multiset.coe_add]
                      simp [List.append_assoc]
                  _ ≤ ↑ents + (((nw.toList : Multiset GEntity) + ↑ne.toList + ↑sw.toList +
                      ↑se.toList) + (e ::ₘ 0)) := add_le_add_left hsum _
                  _ = (↑ents + ((nw.toList : Multiset GEntity) + ↑ne.toList + ↑sw.toList +
                      ↑se.toList)) + (e ::ₘ 0) := by abel
                  _ = ((ents ++ nw.toList ++ ne.toList ++ sw.toList ++ se.toList :
                      List GEntity) : Multiset GEntity) + (e ::ₘ 0) := by rw [hco]
              · have hresf : R.2 = false := by simpa using hres
                have hunch := hq.2 hresf
                have heq : (Qtree.insertAux (fuel' + 1)
                    (Qtree.node b c ents nw ne sw se) e).1 =
                    Qtree.node b c (ents ++ [e]) R.1.1 R.1.2.1 R.1.2.2.1 R.1.2.2.2 := by
                  simp only [Qtree.insertAux, Qtree.boundary]
                  rw [if_neg (not_not_intro hc), if_neg hl, ← hR, if_neg hres]
                rw [heq, hunch]
                refine le_of_eq ?_
                simp only [Qtree.toList]
                exact coe_snoc_append4 ents _ _ _ _ e
          · have heq : Qtree.insertAux (fuel' + 1) (Qtree.node b c ents nw ne sw se) e =
                (Qtree.node b c ents nw ne sw se, false) := by
              simp [Qtree.insertAux, Qtree.boundary, hc]
            rw [heq]
            exact Multiset.le_add_right _ _

/-- A circle query returns a sub-multiset of everything stored. -/
theorem queryCircle2_sub :
    ∀ (t : Qtree) (q : Circle),
      ((t.queryCircle q : List GEntity) : Multiset GEntity) ≤ (t.toList : Multiset GEntity) := by
  intro t
  induction t with
  | leaf b c ents =>
      intro q
      by_cases hint : q.IntersectsAABB b
      · have heq : Qtree.queryCircle (Qtree.leaf b c ents) q =
            ents.filter (fun e => decide (q.ContainsPoint e.position)) := by
          simp [Qtree.queryCircle, hint]
        rw [heq]
        simp only [Qtree.toList]
        exact Multiset.coe_le.mpr (List.filter_sublist ents).subperm
      · have heq : Qtree.queryCircle (Qtree.leaf b c ents) q = [] := by
          simp [Qtree.queryCircle, hint]
        rw [heq]
        simp
  | node b c ents nw ne sw se ihnw ihne ihsw ihse =>
      intro q
      by_cases hint : q.IntersectsAABB b
      · have heq : Qtree.queryCircle (Qtree.node b c ents nw ne sw se) q =
            ents.filter (fun e => decide (q.ContainsPoint e.position))
            ++ nw.queryCircle q ++ ne.queryCircle q ++ sw.queryCircle q
            ++ se.queryCircle q := by
          simp [Qtree.queryCircle, hint]
        rw [heq]
        simp only [Qtree.toList]
        rw [show ((ents.filter (fun e => decide (q.ContainsPoint e.position))
            ++ nw.queryCircle q ++ ne.queryCircle q ++ sw.queryCircle q
            ++ se.queryCircle q : List GEntity) : Multiset GEntity) =
            ((ents.filter (fun e => decide (q.ContainsPoint e.position)) : List GEntity) :
              Multiset GEntity) + ↑(nw.queryCircle q) + ↑(ne.queryCircle q) +
              ↑(sw.queryCircle q) + ↑(se.queryCircle q) from by
          rw [Multiset.coe_add, Multiset.coe_add, Multiset.coe_add, Multiset.coe_add]]
        rw [show ((ents ++ nw.toList ++ ne.toList ++ sw.toList ++ se.toList :
            List GEntity) : Multiset GEntity) = (ents : Multiset GEntity) + ↑nw.toList +
            ↑ne.toList + ↑sw.toList + ↑se.toList from by
          rw [Multiset.coe_add, Multiset.coe_add, Multiset.coe_add, Multiset.coe_add]]
        gcongr
        exacts [Multiset.coe_le.mpr (List.filter_sublist ents).subperm,
          ihnw q, ihne q, ihsw q, ihse q]
      · have heq : Qtree.queryCircle (Qtree.node b c ents nw ne sw se) q = [] := by
          simp [Qtree.queryCircle, hint]
        rw [heq]
        simp

/-- The per-tick rebuild indexes a sub-multiset of the registry. -/
theorem buildTree_sub_aux (fuel : ℕ) :
    ∀ (rl : List GEntity) (t0 : Qtree),
      (((rl.foldl (fun t e => (Qtree.insertAux fuel t e).1) t0).toList : List GEntity) :
        Multiset GEntity) ≤ (t0.toList : Multiset GEntity) + (rl : Multiset GEntity) := by
  intro rl
  induction rl with
  | nil =>
      intro t0
      simp
  | cons x xs ihl =>
      intro t0
      simp only [List.foldl_cons]
      calc (((xs.foldl (fun t e => (Qtree.insertAux fuel t e).1)
            (Qtree.insertAux fuel t0 x).1).toList : List GEntity) : Multiset GEntity)
          ≤ ((Qtree.insertAux fuel t0 x).1.toList : Multiset GEntity) + ↑xs :=
            ihl (Qtree.insertAux fuel t0 x).1
        _ ≤ ((t0.toList : Multiset GEntity) + (x ::ₘ 0)) + ↑xs :=
            add_le_add_right (insertAux2_sub fuel t0 x) _
        _ = (t0.toList : Multiset GEntity) + ((x :: xs : List GEntity) : Multiset GEntity) := by
            rw [← Multiset.cons_coe]
            rw [show (x ::ₘ (0 : Multiset GEntity)) = {x} from rfl]
            rw [show (x ::ₘ (xs : Multiset GEntity)) = {x} + ↑xs from
              (Multiset.singleton_add x ↑xs).symm]
            abel

theorem buildTree_sub (boundary : AABB) (cap : ℕ) (reg : List GEntity) :
    ((buildTree boundary cap reg).toList : Multiset GEntity) ≤ (reg : Multiset GEntity) := by
  have := buildTree_sub_aux (reg.length + 1) reg (Qtree.leaf boundary cap [])
  simpa [buildTree, Qtree.toList] using this

/-- With duplicate-free registry ids, every AOI neighbour list also has
duplicate-free ids. -/
theorem nearby_nodup (boundary : AABB) (cap : ℕ) (reg : List GEntity)
    (hnd : (reg.map GEntity.id).Nodup) (o : GEntity) :
    ((nearbyOf (buildTree boundary cap reg) o).map GEntity.id).Nodup := by
  have h1 : ((nearbyOf (buildTree boundary cap reg) o : List GEntity) : Multiset GEntity) ≤
      (reg : Multiset GEntity) :=
    le_trans (queryCircle2_sub _ _) (buildTree_sub boundary cap reg)
  have h2 : (Multiset.map GEntity.id
      ((nearbyOf (buildTree boundary cap reg) o : List GEntity) : Multiset GEntity)) ≤
      Multiset.map GEntity.id (reg : Multiset GEntity) :=
    Multiset.map_le_map h1
  have h3 : (Multiset.map GEntity.id (reg : Multiset GEntity)).Nodup := by
    rw [Multiset.map_coe]
    exact Multiset.coe_nodup.mpr hnd
  have h4 := Multiset.nodup_of_le h2 h3
  rw [Multiset.map_coe] at h4
  exact Multiset.coe_nodup.mp h4

/-! ## Knowledge lookup lemmas for GameEngine.Tick -/

theorem lookup_none_of_not_key {β : Type} (k : String) :
    ∀ l : List (String × β), k ∉ l.map Prod.fst → List.lookup k l = none := by
  intro l
  induction l with
  | nil => intro _; rfl
  | cons x xs ihl =>
      intro h
      obtain ⟨k1, v1⟩ := x
      simp only [List.map_cons, List.mem_cons] at h
      push_neg at h
      have hne : (k == k1) = false := by
        simp [h.1]
      simp only [List.lookup, hne]
      exact ihl h.2

theorem lookup_append_some {β : Type} (k : String) (v : β) :
    ∀ l1 l2 : List (String × β), List.lookup k l1 = some v →
      List.lookup k (l1 ++ l2) = some v := by
  intro l1
  induction l1 with
  | nil => intro l2 h; simp [List.lookup] at h
  | cons x xs ihl =>
      intro l2 h
      obtain ⟨k1, v1⟩ := x
      by_cases hk : (k == k1) = true
      · simp only [List.cons_append, List.lookup, hk] at h ⊢
        exact h
      · have hk2 : (k == k1) = false := by simpa using hk
        simp only [List.cons_append, List.lookup, hk2] at h ⊢
        exact ihl l2 h

theorem lookup_append_none {β : Type} (k : String) :
    ∀ l1 l2 : List (String × β), List.lookup k l1 = none →
      List.lookup k (l1 ++ l2) = List.lookup k l2 := by
  intro l1
  induction l1 with
  | nil => intro l2 _; simp
  | cons x xs ihl =>
      intro l2 h
      obtain ⟨k1, v1⟩ := x
      by_cases hk : (k == k1) = true
      · simp only [List.lookup, hk] at h
        simp at h
      · have hk2 : (k == k1) = false := by simpa using hk
        simp only [List.cons_append, List.lookup, hk2] at h ⊢
        exact ihl l2 h

/-- In the committed knowledge of an observer (neighbour positions, newest
binding first), every neighbour of a duplicate-free neighbour list is found
at its own position. -/
theorem lookup_reverse_pairs :
    ∀ l : List GEntity, (l.map GEntity.id).Nodup →
      ∀ e ∈ l, List.lookup e.id
        ((l.map (fun e2 => (e2.id, e2.position))).reverse) = some e.position := by
  intro l
  induction l with
  | nil => intro _ e he; simp at he
  | cons x xs ihl =>
      intro hnd e he
      simp only [List.map_cons, List.nodup_cons] at hnd
      obtain ⟨hx, hxs⟩ := hnd
      simp only [List.map_cons, List.reverse_cons]
      rcases List.mem_cons.mp he with h | h
      · subst h
        have hnone : List.lookup e.id ((xs.map (fun e2 => (e2.id, e2.position))).reverse)
            = none := by
          apply lookup_none_of_not_key
          intro hmem
          apply hx
          simp only [List.map_reverse, List.mem_reverse] at hmem
          rw [List.map_map] at hmem
          simpa using hmem
        rw [lookup_append_none _ _ _ hnone]
        simp [List.lookup]
      · exact lookup_append_some _ _ _ _ (ihl hxs e h)

/-- `observeStep` always records the neighbour in the new knowledge. -/
theorem observeStep_newK (knowledge : Knowledge)
    (acc : List GEntityState × List GMovementDelta × Knowledge) (e : GEntity) :
    (observeStep knowledge acc e).2.2 = (e.id, e.position) :: acc.2.2 := by
  simp only [observeStep]
  cases List.lookup e.id knowledge with
  | none => rfl
  | some lp =>
      dsimp only
      by_cases h : e.position.x ≠ lp.x ∨ e.position.y ≠ lp.y
      · rw [if_pos h]
      · rw [if_neg h]

/-- The knowledge committed by the neighbour loop is exactly the neighbour
positions, newest binding first, regardless of the previous knowledge. -/
theorem observeFold_newK (knowledge : Knowledge) :
    ∀ (l : List GEntity) (acc : List GEntityState × List GMovementDelta × Knowledge),
      ((l.foldl (observeStep knowledge) acc).2.2) =
        (l.map (fun e => (e.id, e.position))).reverse ++ acc.2.2 := by
  intro l
  induction l with
  | nil => intro acc; simp
  | cons e l ihl =>
      intro acc
      simp only [List.foldl_cons, List.map_cons, List.reverse_cons]
      rw [ihl (observeStep knowledge acc e), observeStep_newK]
      simp

/-- When every neighbour is known at its current position, the loop emits no
full state and no movement delta. -/
theorem observeFold_no_send (knowledge : Knowledge) :
    ∀ (l : List GEntity) (acc : List GEntityState × List GMovementDelta × Knowledge),
      (∀ e ∈ l, List.lookup e.id knowledge = some e.position) →
      (l.foldl (observeStep knowledge) acc).1 = acc.1 ∧
      (l.foldl (observeStep knowledge) acc).2.1 = acc.2.1 := by
  intro l
  induction l with
  | nil => intro acc _; exact ⟨rfl, rfl⟩
  | cons e l ihl =>
      intro acc hall
      simp only [List.foldl_cons]
      have hstep : (observeStep knowledge acc e).1 = acc.1 ∧
          (observeStep knowledge acc e).2.1 = acc.2.1 := by
        have hl := hall e (by simp)
        simp only [observeStep, hl]
        rw [if_neg (by simp)]
        exact ⟨rfl, rfl⟩
      obtain ⟨h1, h2⟩ := ihl (observeStep knowledge acc e)
        (fun x hx => hall x (by simp [hx]))
      rw [h1, h2, hstep.1, hstep.2]
      exact ⟨rfl, rfl⟩

/-- The knowledge an observer commits during a tick. -/
theorem tickObserver_fst (tree : Qtree) (know : ClientKnowledge) (o : GEntity) :
    (tickObserver tree know o).1 = (o.id, newKfun tree o) :: know := by
  simp only [tickObserver]
  split <;>
    (rw [observeFold_newK ((List.lookup o.id know).getD [])
      (tree.queryCircle ⟨o.position.x, o.position.y, 100⟩) ([], [], [])]
     simp [newKfun, nearbyOf])

/-- An observer whose knowledge already holds every current neighbour at its
current position receives no broadcast. -/
theorem tickObserver_snd_none (tree : Qtree) (know : ClientKnowledge) (o : GEntity)
    (hlook : List.lookup o.id know = some (newKfun tree o))
    (hnd : ((nearbyOf tree o).map GEntity.id).Nodup) :
    (tickObserver tree know o).2 = none := by
  have hall : ∀ e ∈ tree.queryCircle ⟨o.position.x, o.position.y, 100⟩,
      List.lookup e.id (newKfun tree o) = some e.position := by
    intro e he
    have := lookup_reverse_pairs (nearbyOf tree o) hnd e (by simpa [nearbyOf] using he)
    simpa [newKfun] using this
  have h6 := observeFold_no_send (newKfun tree o)
    (tree.queryCircle ⟨o.position.x, o.position.y, 100⟩) ([], [], []) hall
  simp only [tickObserver, hlook, Option.getD_some]
  rw [if_pos ⟨h6.1, h6.2⟩]

/-- The knowledge component of the tick loop is a pure fold of per-observer
commits. -/
theorem gtickFold_knowledge (tree : Qtree) :
    ∀ (rl : List GEntity) (p : ClientKnowledge × List (String × WorldSnapshot)),
      ((rl.foldl (tickStep tree) p).1) =
        rl.foldl (fun kn2 o => (o.id, newKfun tree o) :: kn2) p.1 := by
  intro rl
  induction rl with
  | nil => intro p; rfl
  | cons o rl ihl =>
      intro p
      simp only [List.foldl_cons]
      rw [ihl (tickStep tree p o)]
      have h0 : (tickStep tree p o).1 = (tickObserver tree p.1 o).1 := rfl
      rw [h0, tickObserver_fst tree p.1 o]

theorem lookup_fold_skip (tree : Qtree) :
    ∀ (rl : List GEntity) (kn : ClientKnowledge) (k : String),
      k ∉ rl.map GEntity.id →
      List.lookup k (rl.foldl (fun kn2 o => (o.id, newKfun tree o) :: kn2) kn) =
        List.lookup k kn := by
  intro rl
  induction rl with
  | nil => intro kn k _; rfl
  | cons o rl ihl =>
      intro kn k hk
      simp only [List.map_cons, List.mem_cons] at hk
      push_neg at hk
      simp only [List.foldl_cons]
      rw [ihl _ _ hk.2]
      have : (k == o.id) = false := by simp [hk.1]
      simp [List.lookup, this]

theorem lookup_fold_mem (tree : Qtree) :
    ∀ (rl : List GEntity) (kn : ClientKnowledge) (o : GEntity),
      o ∈ rl → (rl.map GEntity.id).Nodup →
      List.lookup o.id (rl.foldl (fun kn2 o2 => (o2.id, newKfun tree o2) :: kn2) kn) =
        some (newKfun tree o) := by
  intro rl
  induction rl with
  | nil => intro kn o ho _; simp at ho
  | cons x rl ihl =>
      intro kn o ho hnd
      simp only [List.map_cons, List.nodup_cons] at hnd
      obtain ⟨hx, hrl⟩ := hnd
      simp only [List.foldl_cons]
      rcases List.mem_cons.mp ho with h | h
      · subst h
        rw [lookup_fold_skip tree rl _ _ hx]
        simp [List.lookup]
      · exact ihl _ o h hrl

/-- A tick whose every observer already knows all its neighbours at their
current positions emits no broadcast. -/
theorem gtickFold_no_broadcast (tree : Qtree) :
    ∀ (rl : List GEntity) (p : ClientKnowledge × List (String × WorldSnapshot)),
      (∀ o ∈ rl, List.lookup o.id p.1 = some (newKfun tree o)) →
      (rl.map GEntity.id).Nodup →
      (∀ o ∈ rl, ((nearbyOf tree o).map GEntity.id).Nodup) →
      (rl.foldl (tickStep tree) p).2 = p.2 := by
  intro rl
  induction rl with
  | nil => intro p _ _ _; rfl
  | cons o rl ihl =>
      intro p hlook hnd hnb
      simp only [List.map_cons, List.nodup_cons] at hnd
      obtain ⟨ho, hrl⟩ := hnd
      have hnone := tickObserver_snd_none tree p.1 o (hlook o (by simp))
        (hnb o (by simp))
      have hstep : tickStep tree p o = ((o.id, newKfun tree o) :: p.1, p.2) := by
        simp only [tickStep, hnone]
        rw [tickObserver_fst tree p.1 o]
      simp only [List.foldl_cons, hstep]
      refine ihl ((o.id, newKfun tree o) :: p.1, p.2) ?_ hrl
        (fun o2 ho2 => hnb o2 (by simp [ho2]))
      intro o2 ho2
      have hne : (o2.id == o.id) = false := by
        have : o2.id ∈ rl.map GEntity.id := List.mem_map_of_mem _ ho2
        simp only [beq_eq_false_iff_ne, ne_eq]
        intro hcontra
        rw [← hcontra] at ho
        exact ho this
      simp only [List.lookup, hne]
      exact hlook o2 (by simp [ho2])

/-- If the registry (hence every position) is unchanged between two ticks,
the second tick broadcasts nothing to any observer. -/
theorem gameTick_idempotent (boundary : AABB) (cap : ℕ) (reg : List GEntity)
    (k0 : ClientKnowledge) (hnd : (reg.map GEntity.id).Nodup) :
    (gameTick boundary cap reg (gameTick boundary cap reg k0).1).2 = [] := by
  simp only [gameTick]
  refine gtickFold_no_broadcast (buildTree boundary cap reg) reg _ ?_ hnd
    (fun o _ => nearby_nodup boundary cap reg hnd o)
  intro o ho
  rw [gtickFold_knowledge (buildTree boundary cap reg) reg (k0, [])]
  exact lookup_fold_mem (buildTree boundary cap reg) reg k0 o ho hnd

end AetherSync

/-! ## The claims -/

namespace Aether

/-- C1: at every point a tick is not mid-execution both position components
lie within the configured world rectangle: `SpawnEntity` installs only
positions passing the closed bounds check, and the integration step of
`updateEntityPositions` clamps any entity whose velocity would carry it out
of bounds onto the rectangle with velocity zeroed. -/
theorem c1_positions_within_world_bounds (cfg : EngineConfig)
    (hx : cfg.worldBounds.minX ≤ cfg.worldBounds.maxX)
    (hy : cfg.worldBounds.minY ≤ cfg.worldBounds.maxY) :
    (∀ (entities : List Entity) (nextID : ℕ) (t : Quadtree) (entityType : String)
        (x y : ℚ) (clientID : String),
        (spawnEntity cfg entities nextID t entityType x y clientID).2.2.2 ≠ 0 →
        isPositionValid cfg x y) ∧
    (∀ (t : Quadtree) (es : List Entity),
        ∀ e2 ∈ (updateEntityPositions cfg t es).2.1,
          isPositionValid cfg e2.position.x e2.position.y) := by
  constructor
  · intro entities nextID t entityType x y clientID h
    exact spawnEntity_valid cfg entities nextID t entityType x y clientID h
  · intro t es e2 he2
    exact updateEntityPositions_inBounds cfg hx hy es (t, [], [])
      (by intro e he; simp at he) e2 he2

/-- C1 witness: the scenario configuration's bounds are ordered, and the
entity spawned at the origin with velocity (1, 0) is integrated to (1, 0),
which passes the bounds check. -/
theorem c1_positions_within_world_bounds_witness :
    (((-1000 : ℚ) ≤ 1000) ∧ ((-1000 : ℚ) ≤ 1000)) ∧
    isPositionValid ⟨⟨-1000, -1000, 1000, 1000⟩, 5, 100, 4, 8⟩ (0 + 1) (0 + 0) := by
  refine ⟨⟨by norm_num, by norm_num⟩, ?_⟩
  have hval : isPositionValid ⟨⟨-1000, -1000, 1000, 1000⟩, 5, 100, 4, 8⟩
      ((0 : ℚ) + 1) ((0 : ℚ) + 0) := by norm_num [isPositionValid]
  have h1 := (updateOne_valid ⟨⟨-1000, -1000, 1000, 1000⟩, 5, 100, 4, 8⟩
      (NewQuadtree ⟨-1000, -1000, 2000, 2000⟩ 4 0 8, [], [])
      ⟨1, "player", ⟨0, 0⟩, ⟨1, 0⟩, "c", 0, []⟩ hval).1
  exact (c1_positions_within_world_bounds ⟨⟨-1000, -1000, 1000, 1000⟩, 5, 100, 4, 8⟩
      (by norm_num) (by norm_num)).2
    (NewQuadtree ⟨-1000, -1000, 2000, 2000⟩ 4 0 8)
    [⟨1, "player", ⟨0, 0⟩, ⟨1, 0⟩, "c", 0, []⟩]
    ⟨1, "player", ⟨0 + 1, 0 + 0⟩, ⟨1 * 0.95, 0 * 0.95⟩, "c", 0, []⟩
    (by
      show _ ∈ (updateEntityPositions _ _ _).2.1
      simp only [updateEntityPositions, List.foldl_cons, List.foldl_nil]
      rw [h1]
      simp)

/-- C2: the teleport guard is dead code.  For every non-negative `maxSpeed`
the result of `MovementValidator.Validate` never carries the reason
"teleportation detected", because the speed check returns first on any delta
longer than `maxSpeed`; on the S3 input (entity at the origin, intent
`dx = 50, dy = 0` against max speed 5) the validator returns the speed-clamp
result instead, and the intake engine's `validateMovement` fails so
`ProcessMovementIntent` drops the intent silently, leaving the buffer
unchanged and queueing no correction. -/
theorem c2_teleport_rejection_unreachable :
    (∀ (m : ℝ) (wb : RBounds) (ent : REntity) (delta : RDelta), 0 ≤ m →
        (mvValidate m wb ent delta).reason ≠ "teleportation detected") ∧
    (mvValidate 5 ⟨-1000, -1000, 1000, 1000⟩ ⟨1, ⟨0, 0⟩, 0⟩ ⟨1, 1, 50, 0, 0⟩ =
      ⟨false, "exceeds max speed", true, some (limitSpeed ⟨1, 1, 50, 0, 0⟩ 5)⟩) ∧
    ¬ validateMovement ⟨⟨-1000, -1000, 1000, 1000⟩, 5, 100, 4, 8⟩
        ⟨1, "player", ⟨0, 0⟩, ⟨0, 0⟩, "c", 0, []⟩ ⟨1, 1, 50, 0, 0⟩ ∧
    processMovementIntent ⟨⟨-1000, -1000, 1000, 1000⟩, 5, 100, 4, 8⟩
        ⟨1, "player", ⟨0, 0⟩, ⟨0, 0⟩, "c", 0, []⟩ [] ⟨1, 1, 50, 0, 0⟩ = ([], []) := by
  refine ⟨fun m wb ent delta hm => teleport_unreachable m wb ent delta hm, ?_, ?_, ?_⟩
  · apply mvValidate_overspeed
    · norm_num
    · show (5 : ℝ) < Real.sqrt (50 * 50 + 0 * 0)
      rw [show (50 : ℝ) * 50 + 0 * 0 = 50 ^ 2 by norm_num, Real.sqrt_sq (by norm_num)]
      norm_num
  · norm_num [validateMovement, isPositionValid]
  · norm_num [processMovementIntent, validateMovement, isPositionValid]

/-- C3 counterexample: on the S2 input (entity at the origin, fresh intent
`dx = 10, dy = 0` against max speed 5) the intake engine does reject the
intent outright — `validateMovement` fails, `ProcessMovementIntent` leaves
the buffer unchanged and queues nothing, so no clamped delta is ever applied
to the entity — and the authority validator marks the result invalid. -/
theorem c3_counterexample :
    (mvValidate 5 ⟨-1000, -1000, 1000, 1000⟩ ⟨1, ⟨0, 0⟩, 0⟩ ⟨1, 1, 10, 0, 0⟩).valid
      = false ∧
    ¬ validateMovement ⟨⟨-1000, -1000, 1000, 1000⟩, 5, 100, 4, 8⟩
        ⟨1, "player", ⟨0, 0⟩, ⟨0, 0⟩, "c", 0, []⟩ ⟨1, 1, 10, 0, 0⟩ ∧
    processMovementIntent ⟨⟨-1000, -1000, 1000, 1000⟩, 5, 100, 4, 8⟩
        ⟨1, "player", ⟨0, 0⟩, ⟨0, 0⟩, "c", 0, []⟩ [] ⟨1, 1, 10, 0, 0⟩ = ([], []) := by
  refine ⟨?_, ?_, ?_⟩
  · rw [mvValidate_overspeed 5 ⟨-1000, -1000, 1000, 1000⟩ ⟨1, ⟨0, 0⟩, 0⟩ ⟨1, 1, 10, 0, 0⟩
      (by norm_num) (by
        show (5 : ℝ) < Real.sqrt (10 * 10 + 0 * 0)
        rw [show (10 : ℝ) * 10 + 0 * 0 = 10 ^ 2 by norm_num, Real.sqrt_sq (by norm_num)]
        norm_num)]
  · norm_num [validateMovement, isPositionValid]
  · norm_num [processMovementIntent, validateMovement, isPositionValid]

/-- C3 (amended): an over-speed intent is clamped but never applied.  In
`MovementValidator.Validate` a fresh-sequence delta longer than a positive
`maxSpeed` returns invalid with reason "exceeds max speed" yet carries a
modified delta scaled uniformly to magnitude exactly `maxSpeed`; and in the
intake engine every delta whose squared magnitude exceeds `maxSpeed²` fails
`validateMovement`, so `ProcessMovementIntent` drops it with the buffer
unchanged and nothing queued. -/
theorem c3_overspeed_clamped_not_applied (m : ℝ) (wb : RBounds) (ent : REntity)
    (delta : RDelta) (hm : 0 < m) (hseq : ent.lastSequence < delta.sequence)
    (hd : m < Real.sqrt (delta.deltaX * delta.deltaX + delta.deltaY * delta.deltaY)) :
    (mvValidate m wb ent delta =
      ⟨false, "exceeds max speed", true, some (limitSpeed delta m)⟩) ∧
    ((limitSpeed delta m).deltaX = delta.deltaX *
        (m / Real.sqrt (delta.deltaX * delta.deltaX + delta.deltaY * delta.deltaY))) ∧
    ((limitSpeed delta m).deltaY = delta.deltaY *
        (m / Real.sqrt (delta.deltaX * delta.deltaX + delta.deltaY * delta.deltaY))) ∧
    (Real.sqrt ((limitSpeed delta m).deltaX * (limitSpeed delta m).deltaX +
        (limitSpeed delta m).deltaY * (limitSpeed delta m).deltaY) = m) ∧
    (∀ (cfg : EngineConfig) (e : Entity) (buffer : List MovementDelta)
        (d : MovementDelta),
        cfg.maxSpeed * cfg.maxSpeed < d.deltaX * d.deltaX + d.deltaY * d.deltaY →
        processMovementIntent cfg e buffer d = (buffer, [])) := by
  obtain ⟨h1, h2, h3⟩ := limitSpeed_spec delta m hm hd
  refine ⟨mvValidate_overspeed m wb ent delta hseq hd, h1, h2, h3, ?_⟩
  intro cfg e buffer d hfast
  have hnv : ¬ validateMovement cfg e d := fun hv => absurd hv.2.1 (not_le.mpr hfast)
  simp [processMovementIntent, hnv]

/-- C3 witness: max speed 5 is positive, sequence 1 is fresh over 0, the
delta (10, 0) has magnitude 10 > 5, and the validator returns the speed-clamp
result carrying the scaled delta. -/
theorem c3_overspeed_clamped_not_applied_witness :
    ((0 : ℝ) < 5 ∧ (0 : ℕ) < 1 ∧ (5 : ℝ) < Real.sqrt (10 * 10 + 0 * 0)) ∧
    mvValidate 5 ⟨-1000, -1000, 1000, 1000⟩ ⟨3, ⟨0, 0⟩, 0⟩ ⟨3, 1, 10, 0, 0⟩ =
      ⟨false, "exceeds max speed", true, some (limitSpeed ⟨3, 1, 10, 0, 0⟩ 5)⟩ := by
  have hd : (5 : ℝ) < Real.sqrt (10 * 10 + 0 * 0) := by
    rw [show (10 : ℝ) * 10 + 0 * 0 = 10 ^ 2 by norm_num, Real.sqrt_sq (by norm_num)]
    norm_num
  exact ⟨⟨by norm_num, by norm_num, hd⟩,
    (c3_overspeed_clamped_not_applied 5 ⟨-1000, -1000, 1000, 1000⟩ ⟨3, ⟨0, 0⟩, 0⟩
      ⟨3, 1, 10, 0, 0⟩ (by norm_num) (by norm_num) hd).1⟩

/-- C4 counterexample: a rejected over-speed intent produces zero corrections
in its tick, not one: `validateMovement` fails on the intent (0, 10) so
`ProcessMovementIntent` drops it without queueing anything, and the entity's
buffer being empty, delta processing emits nothing either. -/
theorem c4_counterexample :
    ¬ validateMovement ⟨⟨-1000, -1000, 1000, 1000⟩, 5, 100, 4, 8⟩
        ⟨4, "player", ⟨0, 0⟩, ⟨0, 0⟩, "c4", 0, []⟩ ⟨4, 1, 0, 10, 0⟩ ∧
    processMovementIntent ⟨⟨-1000, -1000, 1000, 1000⟩, 5, 100, 4, 8⟩
        ⟨4, "player", ⟨0, 0⟩, ⟨0, 0⟩, "c4", 0, []⟩ [] ⟨4, 1, 0, 10, 0⟩ = ([], []) ∧
    processMovementDeltas ⟨⟨-1000, -1000, 1000, 1000⟩, 5, 100, 4, 8⟩
        ⟨4, "player", ⟨0, 0⟩, ⟨0, 0⟩, "c4", 0, []⟩ [] =
      (⟨4, "player", ⟨0, 0⟩, ⟨0, 0⟩, "c4", 0, []⟩, []) := by
  norm_num [validateMovement, isPositionValid, processMovementIntent,
    processMovementDeltas]

/-- C4 (amended): corrections track only the bounds paths.  An intent failing
`validateMovement` is dropped with no correction; the delta loop queues
exactly one correction per bounds-rejected delta, each addressed to the
owning client; and the integration step queues exactly one correction for a
clamped entity and none for a committed one. -/
theorem c4_correction_accounting (cfg : EngineConfig) :
    (∀ (e : Entity) (buffer : List MovementDelta) (d : MovementDelta),
        ¬ validateMovement cfg e d →
        processMovementIntent cfg e buffer d = (buffer, [])) ∧
    (∀ (e : Entity) (ds : List MovementDelta),
        (processMovementDeltas cfg e ds).2.length =
          (boundsRejectedSeqs cfg e ds).length ∧
        ∀ m ∈ (processMovementDeltas cfg e ds).2,
          m.1 = e.clientID ∧ ∃ cr : Correction, m.2 = Message.correction cr) ∧
    (∀ (acc : Quadtree × List Entity × List QueuedMessage) (e : Entity),
        (isPositionValid cfg (e.position.x + e.velocity.x)
            (e.position.y + e.velocity.y) →
          (updateOne cfg acc e).2.2 = acc.2.2) ∧
        (¬ isPositionValid cfg (e.position.x + e.velocity.x)
            (e.position.y + e.velocity.y) →
          (updateOne cfg acc e).2.2.length = acc.2.2.length + 1)) := by
  refine ⟨?_, ?_, ?_⟩
  · intro e buffer d h
    simp [processMovementIntent, h]
  · intro e ds
    simp only [processMovementDeltas]
    have h := processDeltas_fold_spec cfg ds e []
    refine ⟨by simpa using h.2.2.2.2.2.1, ?_⟩
    intro m hm
    rcases h.2.2.2.2.2.2 m hm with h0 | h1
    · simp at h0
    · exact h1
  · intro acc e
    refine ⟨fun h => (updateOne_valid cfg acc e h).2, fun h => ?_⟩
    obtain ⟨-, e2, -, hlen, -⟩ := updateOne_clamped cfg acc e h
    rw [hlen]
    simp

/-- C5 counterexample: with two stationary entities 10 apart (AOI radius
100) the AOIManager path broadcasts in the second tick as well: the first
diff subscribes entity 2, and the second diff over the unchanged world still
returns a "move" event, so `processAOIEvents` queues an EntityState to
client "c2" even though nothing moved. -/
theorem c5_counterexample :
    (processAOIEventsFor ⟨⟨-1000, -1000, 1000, 1000⟩, 5, 100, 4, 8⟩
        (Quadtree.leaf ⟨-1000, -1000, 2000, 2000⟩ 4 0 8
          [⟨1, "player", ⟨0, 0⟩, ⟨0, 0⟩, "c1", 0, []⟩,
           ⟨2, "player", ⟨10, 0⟩, ⟨0, 0⟩, "c2", 0, []⟩])
        [] ⟨1, "player", ⟨0, 0⟩, ⟨0, 0⟩, "c1", 0, []⟩).1 = [2] ∧
    (processAOIEventsFor ⟨⟨-1000, -1000, 1000, 1000⟩, 5, 100, 4, 8⟩
        (Quadtree.leaf ⟨-1000, -1000, 2000, 2000⟩ 4 0 8
          [⟨1, "player", ⟨0, 0⟩, ⟨0, 0⟩, "c1", 0, []⟩,
           ⟨2, "player", ⟨10, 0⟩, ⟨0, 0⟩, "c2", 0, []⟩])
        [2] ⟨1, "player", ⟨0, 0⟩, ⟨0, 0⟩, "c1", 0, []⟩).2 =
      [("c2", Message.entityState ⟨1, 0, 0, 0, 0, "player"⟩)] := by
  norm_num [processAOIEventsFor, aoiUpdateEntity, setInsert, broadcastToNearby,
    broadcastDespawnToNearby, Quadtree.queryRadius, Quadtree.queryRadiusInternal,
    Vector2.distance, List.filter, List.foldl]

/-- C6 counterexample: the entity at (1000, 0) is in bounds for the engine's
closed check, yet inserting it into the empty spatial index leaves the index
unchanged (the half-open root containment fails at x = MaxX), so querying the
whole world afterwards returns nothing instead of its id. -/
theorem c6_counterexample :
    isPositionValid ⟨⟨-1000, -1000, 1000, 1000⟩, 5, 100, 4, 8⟩ 1000 0 ∧
    insertAll (NewQuadtreeFromConfig ⟨⟨-1000, -1000, 1000, 1000⟩, 5, 100, 4, 8⟩)
        [⟨6, "player", ⟨1000, 0⟩, ⟨0, 0⟩, "c6", 0, []⟩] =
      NewQuadtreeFromConfig ⟨⟨-1000, -1000, 1000, 1000⟩, 5, 100, 4, 8⟩ ∧
    Quadtree.queryBounds
      (insertAll (NewQuadtreeFromConfig ⟨⟨-1000, -1000, 1000, 1000⟩, 5, 100, 4, 8⟩)
        [⟨6, "player", ⟨1000, 0⟩, ⟨0, 0⟩, "c6", 0, []⟩])
      (worldRect ⟨⟨-1000, -1000, 1000, 1000⟩, 5, 100, 4, 8⟩) = [] := by
  have hwf : (NewQuadtreeFromConfig ⟨⟨-1000, -1000, 1000, 1000⟩, 5, 100, 4, 8⟩).wf := by
    simp [NewQuadtreeFromConfig, NewQuadtree, Quadtree.wf]
  have hnc : ¬ (NewQuadtreeFromConfig
      ⟨⟨-1000, -1000, 1000, 1000⟩, 5, 100, 4, 8⟩).bounds.Contains
      ((⟨6, "player", ⟨1000, 0⟩, ⟨0, 0⟩, "c6", 0, []⟩ : Entity).position) := by
    norm_num [NewQuadtreeFromConfig, NewQuadtree, Quadtree.bounds, worldRect,
      Rectangle.Contains]
  have h := (insert_spec_all
      ((NewQuadtreeFromConfig ⟨⟨-1000, -1000, 1000, 1000⟩, 5, 100, 4, 8⟩).maxDepth + 1)
      (NewQuadtreeFromConfig ⟨⟨-1000, -1000, 1000, 1000⟩, 5, 100, 4, 8⟩)
      ⟨6, "player", ⟨1000, 0⟩, ⟨0, 0⟩, "c6", 0, []⟩ hwf (by omega)).1 hnc
  have h2 : insertAll (NewQuadtreeFromConfig ⟨⟨-1000, -1000, 1000, 1000⟩, 5, 100, 4, 8⟩)
      [⟨6, "player", ⟨1000, 0⟩, ⟨0, 0⟩, "c6", 0, []⟩] =
      NewQuadtreeFromConfig ⟨⟨-1000, -1000, 1000, 1000⟩, 5, 100, 4, 8⟩ := by
    simp [insertAll, Quadtree.insert, h]
  refine ⟨by norm_num [isPositionValid], h2, ?_⟩
  rw [h2]
  simp [Quadtree.queryBounds, Quadtree.queryBoundsInternal, NewQuadtreeFromConfig,
    NewQuadtree]

/-- C6 (amended): the round-trip is exact for the containment the index
actually uses: for any duplicate-free set of entities whose positions pass
the HALF-OPEN world-rectangle containment, inserting them all into the empty
index and querying the world rectangle returns exactly their ids, each once. -/
theorem c6_spatial_round_trip (cfg : EngineConfig) (S : List Entity)
    (hid : (S.map Entity.id).Nodup)
    (hS : ∀ e ∈ S, (worldRect cfg).Contains e.position) :
    ((Quadtree.queryBounds (insertAll (NewQuadtreeFromConfig cfg) S)
        (worldRect cfg)).map Entity.id : Multiset ℕ) =
      (S.map Entity.id : Multiset ℕ) ∧
    ((Quadtree.queryBounds (insertAll (NewQuadtreeFromConfig cfg) S)
        (worldRect cfg)).map Entity.id).Nodup := by
  have hwf : (NewQuadtreeFromConfig cfg).wf := by
    simp [NewQuadtreeFromConfig, NewQuadtree, Quadtree.wf]
  obtain ⟨rwf, rcnt, rb, -, -⟩ := insertAll_spec S (NewQuadtreeFromConfig cfg) hwf hS
  have hq : Quadtree.queryBounds (insertAll (NewQuadtreeFromConfig cfg) S)
      (worldRect cfg) = (insertAll (NewQuadtreeFromConfig cfg) S).toList := by
    simp only [Quadtree.queryBounds]
    rw [queryBounds_eq_filter (worldRect cfg) _ rwf]
    apply List.filter_eq_self.mpr
    intro a ha
    have hc := wf_toList_contains _ rwf a ha
    rw [rb] at hc
    exact decide_eq_true hc
  have htl : ((insertAll (NewQuadtreeFromConfig cfg) S).toList : Multiset Entity) =
      (S : Multiset Entity) := by
    have h0 : (NewQuadtreeFromConfig cfg).contents = 0 := by
      simp [Quadtree.contents, NewQuadtreeFromConfig, NewQuadtree, Quadtree.toList]
    have := rcnt
    rw [h0, add_zero] at this
    simpa [Quadtree.contents] using this
  have hm : ((Quadtree.queryBounds (insertAll (NewQuadtreeFromConfig cfg) S)
      (worldRect cfg)).map Entity.id : Multiset ℕ) = (S.map Entity.id : Multiset ℕ) := by
    rw [hq, ← Multiset.map_coe, htl, Multiset.map_coe]
  exact ⟨hm, (Multiset.coe_eq_coe.mp hm).nodup_iff.mpr hid⟩

/-- C6 witness: the singleton set with the entity at the origin has
duplicate-free ids and passes the half-open containment, and its round-trip
through the index returns exactly its id. -/
theorem c6_spatial_round_trip_witness :
    ((([⟨1, "player", ⟨0, 0⟩, ⟨0, 0⟩, "c", 0, []⟩] : List Entity).map Entity.id).Nodup ∧
      ∀ e ∈ ([⟨1, "player", ⟨0, 0⟩, ⟨0, 0⟩, "c", 0, []⟩] : List Entity),
        (worldRect ⟨⟨-1000, -1000, 1000, 1000⟩, 5, 100, 4, 8⟩).Contains e.position) ∧
    ((Quadtree.queryBounds
        (insertAll (NewQuadtreeFromConfig ⟨⟨-1000, -1000, 1000, 1000⟩, 5, 100, 4, 8⟩)
          [⟨1, "player", ⟨0, 0⟩, ⟨0, 0⟩, "c", 0, []⟩])
        (worldRect ⟨⟨-1000, -1000, 1000, 1000⟩, 5, 100, 4, 8⟩)).map Entity.id :
      Multiset ℕ) =
      (([⟨1, "player", ⟨0, 0⟩, ⟨0, 0⟩, "c", 0, []⟩] : List Entity).map Entity.id :
        Multiset ℕ) := by
  have hS : ∀ e ∈ ([⟨1, "player", ⟨0, 0⟩, ⟨0, 0⟩, "c", 0, []⟩] : List Entity),
      (worldRect ⟨⟨-1000, -1000, 1000, 1000⟩, 5, 100, 4, 8⟩).Contains e.position := by
    norm_num [worldRect, Rectangle.Contains]
  exact ⟨⟨by simp, hS⟩,
    (c6_spatial_round_trip ⟨⟨-1000, -1000, 1000, 1000⟩, 5, 100, 4, 8⟩
      [⟨1, "player", ⟨0, 0⟩, ⟨0, 0⟩, "c", 0, []⟩] (by simp) hS).1⟩

/-- C7 (amended): the part_018 `QueryRadius` is exact including the boundary:
on a well-formed index and non-negative radius it returns an entity iff it is
indexed and its Euclidean distance to the center is at most the radius
(distance exactly r included).  The aethersync `QueryCircle` does not share
this property: its strict pruning can drop entities at distance exactly r
(see the counterexample). -/
theorem c7_queryRadius_euclidean_exact (t : Quadtree) (center : Vector2)
    (radius : ℚ) (hwf : t.wf) (hr : 0 ≤ radius) (e : Entity) :
    e ∈ t.queryRadius center radius ↔
      e ∈ t.toList ∧
      Real.sqrt (((e.position.x : ℝ) - (center.x : ℝ)) ^ 2 +
          ((e.position.y : ℝ) - (center.y : ℝ)) ^ 2) ≤ (radius : ℝ) := by
  have hsq : ((e.position.distance center : ℚ) : ℝ) =
      ((e.position.x : ℝ) - (center.x : ℝ)) ^ 2 +
        ((e.position.y : ℝ) - (center.y : ℝ)) ^ 2 := by
    simp only [Vector2.distance]
    push_cast
    ring
  have hiff : e.position.distance center ≤ radius * radius ↔
      Real.sqrt (((e.position.x : ℝ) - (center.x : ℝ)) ^ 2 +
        ((e.position.y : ℝ) - (center.y : ℝ)) ^ 2) ≤ (radius : ℝ) := by
    rw [← hsq]
    constructor
    · intro h
      have h' : ((e.position.distance center : ℚ) : ℝ) ≤ ((radius : ℝ)) ^ 2 := by
        rw [sq]
        exact_mod_cast h
      calc Real.sqrt ((e.position.distance center : ℚ) : ℝ)
          ≤ Real.sqrt (((radius : ℝ)) ^ 2) := Real.sqrt_le_sqrt h'
        _ = (radius : ℝ) := Real.sqrt_sq (by exact_mod_cast hr)
    · intro h
      have h0 : (0 : ℝ) ≤ ((e.position.distance center : ℚ) : ℝ) := by
        rw [hsq]
        positivity
      have h2 : ((e.position.distance center : ℚ) : ℝ) ≤ ((radius : ℝ)) ^ 2 := by
        calc ((e.position.distance center : ℚ) : ℝ)
            = Real.sqrt (((e.position.distance center : ℚ) : ℝ)) ^ 2 :=
              (Real.sq_sqrt h0).symm
          _ ≤ ((radius : ℝ)) ^ 2 := by
              apply pow_le_pow_left₀ (Real.sqrt_nonneg _) h 2
      rw [sq] at h2
      exact_mod_cast h2
  rw [queryRadius_eq_filter t center radius hwf]
  simp only [List.mem_filter, decide_eq_true_eq]
  exact and_congr_right fun _ => hiff

/-- C7 witness: a well-formed one-node index holding the entity at (3, 4),
queried from the origin with radius 5: the membership characterization holds
at that entity, whose Euclidean distance is exactly the radius. -/
theorem c7_queryRadius_euclidean_exact_witness :
    ((Quadtree.leaf ⟨-1000, -1000, 2000, 2000⟩ 4 0 8
        [⟨7, "player", ⟨3, 4⟩, ⟨0, 0⟩, "c7", 0, []⟩]).wf ∧ (0 : ℚ) ≤ 5) ∧
    ((⟨7, "player", ⟨3, 4⟩, ⟨0, 0⟩, "c7", 0, []⟩ : Entity) ∈
        (Quadtree.leaf ⟨-1000, -1000, 2000, 2000⟩ 4 0 8
          [⟨7, "player", ⟨3, 4⟩, ⟨0, 0⟩, "c7", 0, []⟩]).queryRadius ⟨0, 0⟩ 5 ↔
      (⟨7, "player", ⟨3, 4⟩, ⟨0, 0⟩, "c7", 0, []⟩ : Entity) ∈
        (Quadtree.leaf ⟨-1000, -1000, 2000, 2000⟩ 4 0 8
          [⟨7, "player", ⟨3, 4⟩, ⟨0, 0⟩, "c7", 0, []⟩]).toList ∧
      Real.sqrt ((((3 : ℚ) : ℝ) - ((0 : ℚ) : ℝ)) ^ 2 +
          (((4 : ℚ) : ℝ) - ((0 : ℚ) : ℝ)) ^ 2) ≤ ((5 : ℚ) : ℝ)) := by
  have hwf : (Quadtree.leaf ⟨-1000, -1000, 2000, 2000⟩ 4 0 8
      [⟨7, "player", ⟨3, 4⟩, ⟨0, 0⟩, "c7", 0, []⟩]).wf := by
    norm_num [Quadtree.wf, Rectangle.Contains]
  exact ⟨⟨hwf, by norm_num⟩,
    c7_queryRadius_euclidean_exact
      (Quadtree.leaf ⟨-1000, -1000, 2000, 2000⟩ 4 0 8
        [⟨7, "player", ⟨3, 4⟩, ⟨0, 0⟩, "c7", 0, []⟩])
      ⟨0, 0⟩ 5 hwf (by norm_num) ⟨7, "player", ⟨3, 4⟩, ⟨0, 0⟩, "c7", 0, []⟩⟩

/-- C8 counterexample: `ClearPendingMoves` called with `upToSequence = 2` on
an entity whose `lastSequence` is 5 rewrites `lastSequence` down to 2 — the
counter decreases. -/
theorem c8_counterexample :
    (clearPendingMoves ⟨8, "player", ⟨0, 0⟩, ⟨0, 0⟩, "c8", 5, []⟩ 2).lastSequence <
      (⟨8, "player", ⟨0, 0⟩, ⟨0, 0⟩, "c8", 5, []⟩ : Entity).lastSequence := by
  norm_num [clearPendingMoves]

/-- C8 (amended): within the delta-processing loop `lastSequence` never
decreases and, when any delta is accepted, ends at the maximum accepted
sequence (it is an accepted sequence and an upper bound of them all; with no
acceptance it is unchanged); but `ClearPendingMoves` overwrites
`LastSequence` to `upToSequence` unconditionally, which can decrease it. -/
theorem c8_lastSequence_max_accepted (cfg : EngineConfig) (e : Entity)
    (ds : List MovementDelta) (upTo : ℕ) :
    (e.lastSequence ≤ (processMovementDeltas cfg e ds).1.lastSequence) ∧
    (∀ s ∈ acceptedSeqs cfg e ds,
      s ≤ (processMovementDeltas cfg e ds).1.lastSequence) ∧
    (acceptedSeqs cfg e ds ≠ [] →
      (processMovementDeltas cfg e ds).1.lastSequence ∈ acceptedSeqs cfg e ds) ∧
    (acceptedSeqs cfg e ds = [] →
      (processMovementDeltas cfg e ds).1.lastSequence = e.lastSequence) ∧
    ((clearPendingMoves e upTo).lastSequence = upTo) := by
  have h := processDeltas_fold_spec cfg ds e []
  exact ⟨h.2.1, h.2.2.2.1, h.2.2.2.2.1, h.2.2.1, rfl⟩

/-- C8 witness: on the buffer holding sequences 3 then 2 from a fresh entity,
sequence 3 is accepted (2 is stale after it) and the final `lastSequence` is
a member of the accepted list. -/
theorem c8_lastSequence_max_accepted_witness :
    acceptedSeqs ⟨⟨-1000, -1000, 1000, 1000⟩, 5, 100, 4, 8⟩
        ⟨8, "player", ⟨0, 0⟩, ⟨0, 0⟩, "w8", 0, []⟩
        [⟨8, 3, 1, 0, 0⟩, ⟨8, 2, 0, 1, 0⟩] ≠ [] ∧
    (processMovementDeltas ⟨⟨-1000, -1000, 1000, 1000⟩, 5, 100, 4, 8⟩
        ⟨8, "player", ⟨0, 0⟩, ⟨0, 0⟩, "w8", 0, []⟩
        [⟨8, 3, 1, 0, 0⟩, ⟨8, 2, 0, 1, 0⟩]).1.lastSequence ∈
      acceptedSeqs ⟨⟨-1000, -1000, 1000, 1000⟩, 5, 100, 4, 8⟩
        ⟨8, "player", ⟨0, 0⟩, ⟨0, 0⟩, "w8", 0, []⟩
        [⟨8, 3, 1, 0, 0⟩, ⟨8, 2, 0, 1, 0⟩] := by
  have hne : acceptedSeqs ⟨⟨-1000, -1000, 1000, 1000⟩, 5, 100, 4, 8⟩
      ⟨8, "player", ⟨0, 0⟩, ⟨0, 0⟩, "w8", 0, []⟩
      [⟨8, 3, 1, 0, 0⟩, ⟨8, 2, 0, 1, 0⟩] ≠ [] := by
    norm_num [acceptedSeqs, isPositionValid]
  exact ⟨hne, (c8_lastSequence_max_accepted ⟨⟨-1000, -1000, 1000, 1000⟩, 5, 100, 4, 8⟩
    ⟨8, "player", ⟨0, 0⟩, ⟨0, 0⟩, "w8", 0, []⟩
    [⟨8, 3, 1, 0, 0⟩, ⟨8, 2, 0, 1, 0⟩] 0).2.2.1 hne⟩

/-- C9 counterexample: the entity at the origin with velocity (1, 0) and no
new intent ends the tick at x = 1, not at x = 0.95: the integration step does
not move it by the post-friction velocity. -/
theorem c9_counterexample :
    (updateEntityPositions ⟨⟨-1000, -1000, 1000, 1000⟩, 5, 100, 4, 8⟩
        (NewQuadtree ⟨-1000, -1000, 2000, 2000⟩ 4 0 8)
        [⟨9, "player", ⟨0, 0⟩, ⟨1, 0⟩, "c9", 0, []⟩]).2.1.map
      (fun e2 => e2.position.x) = [1] ∧
    (1 : ℚ) ≠ 0.95 * 1 := by
  constructor
  · have h1 := (updateOne_valid ⟨⟨-1000, -1000, 1000, 1000⟩, 5, 100, 4, 8⟩
      (NewQuadtree ⟨-1000, -1000, 2000, 2000⟩ 4 0 8, [], [])
      ⟨9, "player", ⟨0, 0⟩, ⟨1, 0⟩, "c9", 0, []⟩ (by norm_num [isPositionValid])).1
    simp only [updateEntityPositions, List.foldl_cons, List.foldl_nil]
    rw [h1]
    norm_num
  · norm_num

/-- C9 (amended): the integration step advances the position by the
PRE-friction velocity and only then scales the stored velocity by 0.95: an
in-bounds entity with velocity v moves by exactly v during the tick while
its velocity becomes 0.95·v, and no correction is queued for it. -/
theorem c9_position_advances_prefriction (cfg : EngineConfig)
    (acc : Quadtree × List Entity × List QueuedMessage) (e : Entity)
    (h : isPositionValid cfg (e.position.x + e.velocity.x)
      (e.position.y + e.velocity.y)) :
    (updateOne cfg acc e).2.1 = acc.2.1 ++
      [{ e with position := ⟨e.position.x + e.velocity.x, e.position.y + e.velocity.y⟩,
                velocity := ⟨e.velocity.x * 0.95, e.velocity.y * 0.95⟩ }] ∧
    (updateOne cfg acc e).2.2 = acc.2.2 :=
  updateOne_valid cfg acc e h

/-- C9 witness: the entity at (2, 3) with velocity (1, 1) stays in bounds, so
its integration commits with no correction queued. -/
theorem c9_position_advances_prefriction_witness :
    isPositionValid ⟨⟨-1000, -1000, 1000, 1000⟩, 5, 100, 4, 8⟩ (2 + 1) (3 + 1) ∧
    (updateOne ⟨⟨-1000, -1000, 1000, 1000⟩, 5, 100, 4, 8⟩
        (NewQuadtree ⟨-1000, -1000, 2000, 2000⟩ 4 0 8, [], [])
        ⟨9, "player", ⟨2, 3⟩, ⟨1, 1⟩, "w9", 0, []⟩).2.2 = [] := by
  have h : isPositionValid ⟨⟨-1000, -1000, 1000, 1000⟩, 5, 100, 4, 8⟩
      ((2 : ℚ) + 1) ((3 : ℚ) + 1) := by norm_num [isPositionValid]
  exact ⟨h, (c9_position_advances_prefriction ⟨⟨-1000, -1000, 1000, 1000⟩, 5, 100, 4, 8⟩
    (NewQuadtree ⟨-1000, -1000, 2000, 2000⟩ 4 0 8, [], [])
    ⟨9, "player", ⟨2, 3⟩, ⟨1, 1⟩, "w9", 0, []⟩ h).2⟩

/-- C10: a position with x = MaxX (or y = MaxY) passes the engine's closed
bounds check but fails the quadtree's half-open root containment: `Insert`
returns false leaving the tree unchanged, `SpawnEntity` at such a position
returns id 0, and when `Update` re-indexes an entity sitting on that edge its
id disappears from the tree and from every `QueryRadius` result. -/
theorem c10_max_edge_entity_unindexed (cfg : EngineConfig) (t : Quadtree)
    (e : Entity) (hwf : t.wf) (hb : t.bounds = worldRect cfg)
    (hedge : e.position.x = cfg.worldBounds.maxX ∨
      e.position.y = cfg.worldBounds.maxY) :
    t.insert e = (t, false) ∧
    (∀ (entities : List Entity) (nextID : ℕ) (entityType : String)
        (clientID : String),
        (spawnEntity cfg entities nextID t entityType
          e.position.x e.position.y clientID).2.2.2 = 0) ∧
    (t.toList.countP (fun x => decide (x.id = e.id)) ≤ 1 →
      ∀ oldPos : Vector2,
        (t.update e oldPos).1.toList.countP (fun x => decide (x.id = e.id)) = 0 ∧
        ∀ (center : Vector2) (radius : ℚ),
          ∀ x2 ∈ (t.update e oldPos).1.queryRadius center radius, x2.id ≠ e.id) := by
  have hnc : ¬ t.bounds.Contains e.position := by
    rw [hb]
    simp only [worldRect, Rectangle.Contains]
    rintro ⟨-, h2, -, h4⟩
    rcases hedge with hx | hy
    · rw [hx] at h2
      have heq : cfg.worldBounds.minX +
          (cfg.worldBounds.maxX - cfg.worldBounds.minX) = cfg.worldBounds.maxX := by
        ring
      rw [heq] at h2
      exact lt_irrefl _ h2
    · rw [hy] at h4
      have heq : cfg.worldBounds.minY +
          (cfg.worldBounds.maxY - cfg.worldBounds.minY) = cfg.worldBounds.maxY := by
        ring
      rw [heq] at h4
      exact lt_irrefl _ h4
  have hins : ∀ ent : Entity, ent.position = e.position → t.insert ent = (t, false) := by
    intro ent hpos
    have hnc2 : ¬ t.bounds.Contains ent.position := by rw [hpos]; exact hnc
    simp only [Quadtree.insert]
    exact (insert_spec_all (t.maxDepth + 1) t ent hwf (by omega)).1 hnc2
  refine ⟨hins e rfl, ?_, ?_⟩
  · intro entities nextID entityType clientID
    by_cases hval : isPositionValid cfg e.position.x e.position.y
    · have h2 := hins ⟨nextID, entityType, ⟨e.position.x, e.position.y⟩, ⟨0, 0⟩,
        clientID, 0, []⟩ rfl
      simp [spawnEntity, hval, h2]
    · simp [spawnEntity, hval]
  · intro hcount oldPos
    obtain ⟨hcnt0, hwf2, -⟩ := update_outside t e oldPos hwf hcount hnc
    refine ⟨hcnt0, ?_⟩
    intro center radius x2 hx2 heq
    rw [queryRadius_eq_filter (t.update e oldPos).1 center radius hwf2] at hx2
    have hmem := List.mem_of_mem_filter hx2
    have hpred : (fun x => decide (x.id = e.id)) x2 = true := by
      simp [heq]
    have hpos : 0 < (t.update e oldPos).1.toList.countP
        (fun x => decide (x.id = e.id)) :=
      List.countP_pos_iff.mpr ⟨x2, hmem, hpred⟩
    omega

/-- C10 witness: over the scenario configuration, the tree holding a stale
record of entity 10 at (999, 0): inserting the entity now at (1000, 0) fails
leaving the tree unchanged, and `Update` wipes its id from the index. -/
theorem c10_max_edge_entity_unindexed_witness :
    ((Quadtree.leaf (worldRect ⟨⟨-1000, -1000, 1000, 1000⟩, 5, 100, 4, 8⟩) 4 0 8
        [⟨10, "player", ⟨999, 0⟩, ⟨0, 0⟩, "cA", 0, []⟩]).wf ∧
      ((1000 : ℚ) = 1000 ∨ (0 : ℚ) = 1000)) ∧
    (Quadtree.leaf (worldRect ⟨⟨-1000, -1000, 1000, 1000⟩, 5, 100, 4, 8⟩) 4 0 8
        [⟨10, "player", ⟨999, 0⟩, ⟨0, 0⟩, "cA", 0, []⟩]).insert
      ⟨10, "player", ⟨1000, 0⟩, ⟨0, 0⟩, "cA", 0, []⟩ =
      (Quadtree.leaf (worldRect ⟨⟨-1000, -1000, 1000, 1000⟩, 5, 100, 4, 8⟩) 4 0 8
        [⟨10, "player", ⟨999, 0⟩, ⟨0, 0⟩, "cA", 0, []⟩], false) ∧
    ((Quadtree.leaf (worldRect ⟨⟨-1000, -1000, 1000, 1000⟩, 5, 100, 4, 8⟩) 4 0 8
        [⟨10, "player", ⟨999, 0⟩, ⟨0, 0⟩, "cA", 0, []⟩]).update
      ⟨10, "player", ⟨1000, 0⟩, ⟨0, 0⟩, "cA", 0, []⟩ ⟨999, 0⟩).1.toList.countP
      (fun x => decide (x.id =
        (⟨10, "player", ⟨1000, 0⟩, ⟨0, 0⟩, "cA", 0, []⟩ : Entity).id)) = 0 := by
  have hwf : (Quadtree.leaf (worldRect ⟨⟨-1000, -1000, 1000, 1000⟩, 5, 100, 4, 8⟩) 4 0 8
      [⟨10, "player", ⟨999, 0⟩, ⟨0, 0⟩, "cA", 0, []⟩]).wf := by
    norm_num [Quadtree.wf, worldRect, Rectangle.Contains]
  have h := c10_max_edge_entity_unindexed ⟨⟨-1000, -1000, 1000, 1000⟩, 5, 100, 4, 8⟩
    (Quadtree.leaf (worldRect ⟨⟨-1000, -1000, 1000, 1000⟩, 5, 100, 4, 8⟩) 4 0 8
      [⟨10, "player", ⟨999, 0⟩, ⟨0, 0⟩, "cA", 0, []⟩])
    ⟨10, "player", ⟨1000, 0⟩, ⟨0, 0⟩, "cA", 0, []⟩ hwf rfl (Or.inl rfl)
  exact ⟨⟨hwf, Or.inl rfl⟩, h.1,
    (h.2.2 (by simp [Quadtree.toList]) ⟨999, 0⟩).1⟩

end Aether

namespace AetherSync

/-- C5 (amended): the aethersync `GameEngine.Tick` does satisfy the
idempotence property: over any registry with duplicate-free entity ids, a
tick run immediately after a tick on the unchanged registry finds every
observer's view already known at unchanged positions and broadcasts nothing.
(The AOIManager path of the intake engine violates the original claim: its
diff returns a "move" event whenever the subscriber set is non-empty, see the
counterexample.) -/
theorem c5_static_second_tick_silent (boundary : AABB) (cap : ℕ)
    (reg : List GEntity) (k0 : ClientKnowledge)
    (hnd : (reg.map GEntity.id).Nodup) :
    (gameTick boundary cap reg (gameTick boundary cap reg k0).1).2 = [] :=
  gameTick_idempotent boundary cap reg k0 hnd

/-- C5 witness: two distinct stationary entities inside the world box: the
tick after a tick broadcasts nothing. -/
theorem c5_static_second_tick_silent_witness :
    (([⟨"a", ⟨0, 0⟩, ⟨0, 0⟩, 0, 0⟩, ⟨"b", ⟨10, 0⟩, ⟨0, 0⟩, 0, 0⟩] :
        List GEntity).map GEntity.id).Nodup ∧
    (gameTick ⟨0, 0, 1000⟩ 4
        [⟨"a", ⟨0, 0⟩, ⟨0, 0⟩, 0, 0⟩, ⟨"b", ⟨10, 0⟩, ⟨0, 0⟩, 0, 0⟩]
        (gameTick ⟨0, 0, 1000⟩ 4
          [⟨"a", ⟨0, 0⟩, ⟨0, 0⟩, 0, 0⟩, ⟨"b", ⟨10, 0⟩, ⟨0, 0⟩, 0, 0⟩] []).1).2 = [] := by
  refine ⟨by simp, c5_static_second_tick_silent ⟨0, 0, 1000⟩ 4
    [⟨"a", ⟨0, 0⟩, ⟨0, 0⟩, 0, 0⟩, ⟨"b", ⟨10, 0⟩, ⟨0, 0⟩, 0, 0⟩] [] (by simp)⟩

/-- C7 counterexample: in the aethersync quadtree (root box center (0, 0),
half-dimension 4, capacity 1) holding "a" at (-1, -1) and "b" at (2, 0), the
circle centered (2, -3) with radius 3 contains "b" at distance exactly 3,
yet `QueryCircle` returns nothing: the strict intersection test prunes the
child box whose closest point lies at distance exactly the radius. -/
theorem c7_counterexample :
    ((Qtree.insertAux 1 (Qtree.leaf ⟨0, 0, 4⟩ 1 [⟨"a", ⟨-1, -1⟩, ⟨0, 0⟩, 0, 0⟩])
        ⟨"b", ⟨2, 0⟩, ⟨0, 0⟩, 0, 0⟩).1.toList =
      [⟨"a", ⟨-1, -1⟩, ⟨0, 0⟩, 0, 0⟩, ⟨"b", ⟨2, 0⟩, ⟨0, 0⟩, 0, 0⟩]) ∧
    Circle.ContainsPoint ⟨2, -3, 3⟩ ⟨2, 0⟩ ∧
    Qtree.queryCircle
      (Qtree.insertAux 1 (Qtree.leaf ⟨0, 0, 4⟩ 1 [⟨"a", ⟨-1, -1⟩, ⟨0, 0⟩, 0, 0⟩])
        ⟨"b", ⟨2, 0⟩, ⟨0, 0⟩, 0, 0⟩).1 ⟨2, -3, 3⟩ = [] := by
  norm_num [Qtree.insertAux, tryChildren, subdivided, AABB.ContainsPoint,
    Qtree.boundary, Qtree.toList, Qtree.queryCircle, Circle.IntersectsAABB,
    Circle.ContainsPoint, clamp, List.filter]

end AetherSync
